import Mathlib

/-!
Verification development for the `@osmium/coder` packet serializer
(`src/classes/Serializer.ts`) and its helpers (`src/classes/CoderTools`,
`src/lib/crc/crc32.ts`).

Buffers are modelled as `List Nat` whose entries are byte values; `Buffer.from`
coercion is modelled by mapping `· % 256` over the list.  Fallible operations
(JS `throw`) are modelled with `Except String`.  JS objects used as payloads
are modelled as insertion-ordered association lists of string keys.
-/

namespace Osmium

/-! ## CoderTools: numeric conversions (`CoderTools/NumericConversion.ts`) -/

/-- Model of `CoderTools.int8UToBuf`: one-byte buffer via `writeUInt8`.
Node throws for values above 255; the serializer only writes the constant
version byte 3, so the truncating model is never exercised out of range. -/
def int8UToBuf (n : Nat) : List Nat := [n % 256]

/-- Model of `CoderTools.int32UToBuf(int, be = false)`: four-byte buffer via
`writeUInt32LE` (default) or `writeUInt32BE`.  Note the default is
little-endian.  Node throws for values at or above 2^32; call sites proved
about below only pass values below 2^32. -/
def int32UToBuf (n : Nat) (be : Bool := false) : List Nat :=
  let le := [n % 256, n / 256 % 256, n / 65536 % 256, n / 16777216 % 256]
  if be then le.reverse else le

/-- Model of `CoderTools.bufToInt8U`: `readUInt8(offset)`; reading past the
end of the buffer throws `ERR_OUT_OF_RANGE` in Node. -/
def bufToInt8U (buf : List Nat) (offset : Nat) : Except String Nat :=
  match buf.drop offset with
  | b :: _ => .ok b
  | [] => .error "Attempt to access memory outside buffer bounds"

/-- Model of `CoderTools.bufToInt32U(buf, offset = 0, be = false)`:
`readUInt32LE` by default (little-endian), `readUInt32BE` when `be`. -/
def bufToInt32U (buf : List Nat) (offset : Nat) (be : Bool := false) :
    Except String Nat :=
  match buf.drop offset with
  | b0 :: b1 :: b2 :: b3 :: _ =>
      .ok (if be then b3 + 256 * b2 + 65536 * b1 + 16777216 * b0
           else b0 + 256 * b1 + 65536 * b2 + 16777216 * b3)
  | _ => .error "Attempt to access memory outside buffer bounds"

/-! ## CoderTools: bit flags (`CoderTools/BitOperations.ts`) -/

/-- Model of `CoderTools.binFlagsToBuf`: packs an up-to-8-slot boolean list
into one byte, slot 0 becoming the most significant bit (the source joins
`arr[idx] ? 1 : 0` over 8 slots into a binary string and parses it). -/
def binFlagsToBuf (flags : List Bool) : List Nat :=
  [ (if flags.getD 0 false then 128 else 0) +
    (if flags.getD 1 false then 64 else 0) +
    (if flags.getD 2 false then 32 else 0) +
    (if flags.getD 3 false then 16 else 0) +
    (if flags.getD 4 false then 8 else 0) +
    (if flags.getD 5 false then 4 else 0) +
    (if flags.getD 6 false then 2 else 0) +
    (if flags.getD 7 false then 1 else 0) ]

/-- Model of `CoderTools.bufToBinFlags(buf, offset)`: reads one byte, writes
it in binary padded to 8 digits, and maps digits to booleans, so entry `i` of
the result is bit `7 - i` of the byte. -/
def bufToBinFlags (buf : List Nat) (offset : Nat) : Except String (List Bool) :=
  (bufToInt8U buf offset).map (fun b =>
    [b.testBit 7, b.testBit 6, b.testBit 5, b.testBit 4,
     b.testBit 3, b.testBit 2, b.testBit 1, b.testBit 0])

/-! ## CRC-32 (`src/lib/crc/crc32.ts`, class `CRC32`)

The JS source computes with 32-bit integer operations (`>>>`, `^`, `& 0xFF`)
and unsigned-normalises with `>>> 0`; on byte values below 256 and running
values below 2^32 those coincide with the `Nat` operations used here. -/

/-- Polynomial constant `0xEDB88320` from `CRC32.table` generation. -/
def crcPoly : Nat := 0xEDB88320

/-- Model of one inner iteration of the table generator:
`c = (c & 1) ? (0xEDB88320 ^ (c >>> 1)) : (c >>> 1)`. -/
def crcRound (c : Nat) : Nat := if c % 2 = 1 then crcPoly ^^^ (c / 2) else c / 2

/-- Model of `CRC32.table[i]`: eight rounds applied to the byte value `i`. -/
def crcTableEntry (i : Nat) : Nat :=
  crcRound (crcRound (crcRound (crcRound (crcRound (crcRound (crcRound (crcRound i)))))))

/-- Model of one step of `CRC32.calc`:
`crc = (crc >>> 8) ^ CRC32.table[(crc ^ element) & 0xFF]`. -/
def crc32Step (crc b : Nat) : Nat :=
  (crc / 256) ^^^ crcTableEntry ((crc ^^^ b) % 256)

/-- Model of `CRC32.calc` (as exposed through `CoderTools.crc32`): fold the
step over the data starting from `0xFFFFFFFF`, then complement
(`(crc ^ -1) >>> 0`). -/
def crc32Calc (data : List Nat) : Nat :=
  (data.foldl crc32Step 0xFFFFFFFF) ^^^ 0xFFFFFFFF

/-! ## Structured values and the Object Coder

The Serializer delegates byte-level value encoding to `DataCoder`
(`src/classes/DataCoder.ts`), a thin wrapper around the external `msgpackr`
library.  The spec treats this dependency as a black box specified only by
its interface contract (`encode(value) -> bytes`, `decode(bytes) -> value`,
round-tripping structured values). -/

/-- Structured values handled by the object coder: integers, strings,
ordered sequences and insertion-ordered string-keyed maps. -/
inductive Value where
  | vInt (n : Int)
  | vStr (s : String)
  | vArr (elems : List Value)
  | vMap (entries : List (String × Value))

/-- Base-256 little-endian digits, fuelled so the kernel can evaluate it;
the first argument is the fuel (one digit is produced per fuel unit). -/
def natDigitsGo : Nat → Nat → List Nat
  | _, 0 => []
  | 0, _ + 1 => []
  | fuel + 1, n + 1 => ((n + 1) % 256) :: natDigitsGo fuel ((n + 1) / 256)

/-- Base-256 little-endian digits of a natural number (empty for 0); fuel
`n` always suffices since the value shrinks by a factor 256 per digit. -/
def natDigits (n : Nat) : List Nat := natDigitsGo n n

/-- Recombine base-256 little-endian digits. -/
def undigits : List Nat → Nat
  | [] => 0
  | d :: ds => d + 256 * undigits ds

/-- Self-delimiting encoding of a natural number: a unary run of 1-bytes
giving the digit count, a 0-byte marker, then the digits. -/
def encNatSD (n : Nat) : List Nat :=
  List.replicate (natDigits n).length 1 ++ 0 :: natDigits n

/-- Modelled from the spec: encoding of one string for the object coder
(length, then the self-delimited code points). -/
def encStr (s : String) : List Nat :=
  encNatSD s.length ++ (s.data.map (fun c => encNatSD c.toNat)).flatten

mutual

/-- Modelled from the spec: `DataCoder.encode` (the external `msgpackr`
encoder is out of the repository and specified only by its round-trip
contract; this executable prefix-free codec realizes that contract). -/
def coderEncode : Value → List Nat
  | .vInt n => 0 :: (if n < 0 then 1 else 0) :: encNatSD n.natAbs
  | .vStr s => 1 :: encStr s
  | .vArr l => 2 :: encNatSD l.length ++ encodeList l
  | .vMap l => 3 :: encNatSD l.length ++ encodeEntries l

/-- Concatenated encodings of a list of values. -/
def encodeList : List Value → List Nat
  | [] => []
  | v :: vs => coderEncode v ++ encodeList vs

/-- Concatenated encodings of a list of map entries. -/
def encodeEntries : List (String × Value) → List Nat
  | [] => []
  | (k, v) :: rest => encStr k ++ coderEncode v ++ encodeEntries rest

end

/-- Parse the unary digit-count prefix: 1-bytes until a 0-byte marker. -/
def parsePrefixLen : List Nat → Option (Nat × List Nat)
  | 0 :: rest => some (0, rest)
  | 1 :: rest => (parsePrefixLen rest).map (fun p => (p.1 + 1, p.2))
  | _ => none

/-- Parse one self-delimited natural number. -/
def parseNatSD (l : List Nat) : Option (Nat × List Nat) :=
  match parsePrefixLen l with
  | some (k, rest) =>
      if k ≤ rest.length then some (undigits (rest.take k), rest.drop k) else none
  | none => none

/-- Parse a run of `n` items with the item parser `p`. -/
def parseMany (p : List Nat → Option (α × List Nat)) :
    Nat → List Nat → Option (List α × List Nat)
  | 0, l => some ([], l)
  | n + 1, l =>
      match p l with
      | some (a, r) =>
          match parseMany p n r with
          | some (as, r2) => some (a :: as, r2)
          | none => none
      | none => none

/-- Parse one string (length, then that many code points). -/
def parseStr (l : List Nat) : Option (String × List Nat) :=
  match parseNatSD l with
  | some (n, r) =>
      match parseMany (fun l2 => (parseNatSD l2).map (fun p => (Char.ofNat p.1, p.2))) n r with
      | some (cs, r2) => some (String.mk cs, r2)
      | none => none
  | none => none

/-- Fuelled parser for one structured value; the fuel bounds nesting depth. -/
def parseVal : Nat → List Nat → Option (Value × List Nat)
  | 0, _ => none
  | fuel + 1, l =>
      match l with
      | 0 :: sgn :: rest =>
          (parseNatSD rest).map (fun p =>
            (.vInt (if sgn = 1 then -(p.1 : Int) else (p.1 : Int)), p.2))
      | 1 :: rest => (parseStr rest).map (fun p => (.vStr p.1, p.2))
      | 2 :: rest =>
          match parseNatSD rest with
          | some (n, r) =>
              (parseMany (parseVal fuel) n r).map (fun p => (.vArr p.1, p.2))
          | none => none
      | 3 :: rest =>
          match parseNatSD rest with
          | some (n, r) =>
              (parseMany
                (fun l2 =>
                  match parseStr l2 with
                  | some (k, r2) =>
                      (parseVal fuel r2).map (fun p => ((k, p.1), p.2))
                  | none => none) n r).map (fun p => (.vMap p.1, p.2))
          | none => none
      | _ => none

/-- Modelled from the spec: `DataCoder.decode`.  Rejects the empty buffer
with the source's message (`DataCoder.decode` line 107) and otherwise applies
the parser, which inverts `coderEncode`. -/
def coderDecode (buf : List Nat) : Except String Value :=
  if buf.length = 0 then .error "Cannot decode empty or null buffer"
  else
    match parseVal buf.length buf with
    | some (v, []) => .ok v
    | _ => .error "Failed to decode data"

/-! ## String comparison and JS array sort

The serializer sorts field names with `(a, b) => a.localeCompare(b)`.
`String.prototype.localeCompare` is a JS builtin (ECMA-402); under Node's
default locale (ICU root collation) restricted to ASCII alphanumeric
strings it compares primary weights first (digits before letters, letters
case-insensitively) and breaks primary ties by case, lowercase before
uppercase.  The model below implements exactly that fragment. -/

/-- Primary collation weight of an ASCII character under the root collation:
digits sort before letters, letters sort by base letter ignoring case.
Characters outside the alphanumeric fragment get an arbitrary distinct
weight; no theorem below depends on them. -/
def primaryWeight (c : Char) : Nat :=
  if 48 ≤ c.toNat ∧ c.toNat ≤ 57 then c.toNat - 48
  else if 65 ≤ c.toNat ∧ c.toNat ≤ 90 then 10 + (c.toNat - 65)
  else if 97 ≤ c.toNat ∧ c.toNat ≤ 122 then 10 + (c.toNat - 97)
  else 1000 + c.toNat

/-- Tertiary (case) weight: lowercase sorts before uppercase. -/
def caseWeight (c : Char) : Nat :=
  if 65 ≤ c.toNat ∧ c.toNat ≤ 90 then 1 else 0

/-- Lexicographic three-way comparison of weight lists. -/
def cmpNatList : List Nat → List Nat → Int
  | [], [] => 0
  | [], _ :: _ => -1
  | _ :: _, [] => 1
  | a :: as, b :: bs =>
      if a < b then -1 else if b < a then 1 else cmpNatList as bs

/-- Model of `a.localeCompare(b)` (root collation, ASCII fragment): compare
primary weights, then case weights. -/
def localeCompare (a b : String) : Int :=
  let p := cmpNatList (a.data.map primaryWeight) (b.data.map primaryWeight)
  if p ≠ 0 then p else cmpNatList (a.data.map caseWeight) (b.data.map caseWeight)

/-- Ordinal (code-unit) three-way string comparison.  This definition follows
the spec's words ("plain byte/ordinal (code-unit) string comparison") and is
kept separate from `localeCompare` so the two can be compared. -/
def ordinalCompare (a b : String) : Int :=
  cmpNatList (a.data.map Char.toNat) (b.data.map Char.toNat)

/-- Stable insertion of one element with respect to a JS comparator: the
element is placed before the first existing element that compares greater
(`cmp x y < 0`), hence after all elements comparing equal. -/
def jsSortInsert (cmp : α → α → Int) (x : α) : List α → List α
  | [] => [x]
  | y :: ys => if cmp x y < 0 then x :: y :: ys else y :: jsSortInsert cmp x ys

/-- Model of `Array.prototype.sort(cmp)`: a stable sort with respect to the
comparator (JS sort is specified stable; for the total preorders used here
any stable sort produces this result). -/
def jsSort (cmp : α → α → Int) (l : List α) : List α :=
  l.foldl (fun acc x => jsSortInsert cmp x acc) []

/-! ## Serializer state (`src/classes/Serializer.ts`)

`options.useCompress` holds injected compression callbacks; it is fixed at
construction and never reassigned, so it is passed as a separate parameter
to keep the state decidable.  The remaining per-instance fields are data. -/

/-- Compression strategy interface (`SerializerPacketCompressor`). -/
structure Compressor where
  compress : List Nat → List Nat
  decompress : List Nat → List Nat

/-- Mutable per-instance state of a `Serializer`: the `options` record
(minus the compressor), the `enableCompression` instance field, the
compression threshold, and the schema registry.  The registry is kept
sorted by ascending id, matching JS object iteration order for
integer-like keys. -/
structure SerializerState where
  optUseCRC32 : Bool
  optUseSchema : Bool
  enableCompression : Bool
  compressionLengthThreshold : Nat
  schemes : List (Nat × List String)
deriving DecidableEq, Repr

/-- State of a freshly constructed `new Serializer()` with default options:
`useCRC32` true, `useSchema` absent (falsy), no compression state, default
threshold 1024, empty registry. -/
def initialState : SerializerState :=
  { optUseCRC32 := true
    optUseSchema := false
    enableCompression := false
    compressionLengthThreshold := 1024
    schemes := [] }

/-- Registry lookup `this.schemes[id]`. -/
def getScheme (st : SerializerState) (id : Nat) : Option (List String) :=
  (st.schemes.find? (fun p => p.1 == id)).map Prod.snd

/-- Insert an entry keeping the registry sorted by ascending id (JS objects
iterate integer-like keys in ascending order). -/
def insertScheme : List (Nat × α) → Nat → α → List (Nat × α)
  | [], id, fs => [(id, fs)]
  | (i, f) :: rest, id, fs =>
      if id < i then (id, fs) :: (i, f) :: rest else (i, f) :: insertScheme rest id fs

/-- Model of `Serializer.registerSchema`.  The id is a `Nat`, which is
exactly the domain accepted by the source's first validation (non-negative
integers); the field validations and the duplicate check follow the source
order.  The stored list is a sorted copy: `[...fields].sort((a, b) =>
a.localeCompare(b))`. -/
def registerSchema (st : SerializerState) (id : Nat) (fields : List String) :
    Except String SerializerState :=
  if fields.length = 0 then .error "Schema fields must be a non-empty array of strings"
  else if ¬ fields.all (fun f => f.length > 0) then
    .error "All schema fields must be non-empty strings"
  else
    match getScheme st id with
    | some _ => .error ("Schema with id " ++ toString id ++ " already registered")
    | none =>
        .ok { st with schemes := insertScheme st.schemes id (jsSort localeCompare fields) }

/-- Model of `Serializer.updateSchema`: requires the id to exist, validates
fields the same way, then replaces the stored list with a sorted copy. -/
def updateSchema (st : SerializerState) (id : Nat) (fields : List String) :
    Except String SerializerState :=
  match getScheme st id with
  | none => .error ("Schema with id " ++ toString id ++ " not found")
  | some _ =>
      if fields.length = 0 then .error "Schema fields must be a non-empty array of strings"
      else if ¬ fields.all (fun f => f.length > 0) then
        .error "All schema fields must be non-empty strings"
      else
        .ok { st with
              schemes := st.schemes.map (fun p =>
                if p.1 = id then (p.1, jsSort localeCompare fields) else p) }

/-! ## Packet assembly and parsing -/

/-- State after the mutations performed at the top of
`Serializer.makePacket`: `if (schema !== null) config.useSchema = true`
(note `config` aliases `this.options`), then, when a compressor is
configured, `this.enableCompression = data.length >= threshold`. -/
def makePacketState (st : SerializerState) (comp : Option Compressor)
    (dataLen : Nat) (schema : Option Nat) : SerializerState :=
  let st1 := if schema.isSome then { st with optUseSchema := true } else st
  match comp with
  | some _ =>
      { st1 with
        enableCompression := decide (st1.compressionLengthThreshold ≤ dataLen) }
  | none => st1

/-- Output bytes of `makePacket`:
`(this.enableCompression && compress) ? compress(data) : data`, with the
compressor's `Buffer` result normalised to bytes. -/
def compressedOut (st : SerializerState) (comp : Option Compressor)
    (data : List Nat) : List Nat :=
  match comp with
  | some c => if st.enableCompression then (c.compress data).map (· % 256) else data
  | none => data

/-- Schema-id field of the packet: `if (schema)` pushes the 4-byte id, so
nothing is written when the id is null — or 0, which is falsy in JS. -/
def schemaPartBytes : Option Nat → List Nat
  | some s => if s ≠ 0 then int32UToBuf s else []
  | none => []

/-- Model of `Serializer.makePacket(config, data, schema)`, where `config`
is `this.options`: updates the instance state, then concatenates the version
byte, the flag byte `[enableCompression, useCRC32, !!useSchema]`, the CRC32
field when `config.useCRC32`, the schema-id field when `schema` is truthy
(so NOT when it is 0 or null), and the (possibly compressed) data.  Returns
the updated state together with the packet. -/
def makePacket (st : SerializerState) (comp : Option Compressor)
    (data : List Nat) (schema : Option Nat) : SerializerState × List Nat :=
  let st2 := makePacketState st comp data.length schema
  let outData := compressedOut st2 comp data
  let crcPart := if st2.optUseCRC32 then int32UToBuf (crc32Calc outData) else []
  let schemaPart := schemaPartBytes schema
  (st2,
   int8UToBuf 3 ++
     binFlagsToBuf [st2.enableCompression, st2.optUseCRC32, st2.optUseSchema] ++
     crcPart ++ schemaPart ++ outData)

/-- Schema reference argument of `serialize`: an id or an `{id, fields}`
object (whose fields are ignored; only the id is used for lookup). -/
inductive SchemaRef where
  | byId (id : Nat)
  | byObj (id : Nat) (fields : List String)

/-- Auto-detection scan of `serialize` when no schema argument is given:
first registry entry (ascending id order) whose stored sorted field list
equals the sorted payload key list. -/
def autodetect (schemes : List (Nat × List String)) (sortedKeys : List String) :
    Option Nat :=
  (schemes.find? (fun p => p.2 == sortedKeys)).map Prod.fst

/-- Lookup `payload[key]` in the insertion-ordered payload object. -/
def lookupEntry (entries : List (String × Value)) (k : String) : Option Value :=
  (entries.find? (fun p => p.1 == k)).map Prod.snd

/-- Candidate schema id of `serialize`: the explicit argument's id, or
auto-detection over the sorted payload keys when no argument is given. -/
def detectId (st : SerializerState) (entries : List (String × Value)) :
    Option SchemaRef → Option Nat
  | none => autodetect st.schemes (jsSort localeCompare (entries.map Prod.fst))
  | some (.byId i) => some i
  | some (.byObj i _) => some i

/-- Schema-selection and payload-reordering phase of `serialize` (lines
223-266): auto-detect or look up the schema, validate the payload keys
against it, and reorder the payload by the stored field order.  Returns the
effective schema id (when one was found in the registry) and the effective
payload entries. -/
def selectSchema (st : SerializerState) (entries : List (String × Value))
    (schemaArg : Option SchemaRef) :
    Except String (Option Nat × List (String × Value)) :=
  match detectId st entries schemaArg with
  | none => .ok (none, entries)
  | some schemaId =>
      match getScheme st schemaId with
      | none => .ok (none, entries)
      | some schemaFields =>
          let payloadKeys := jsSort localeCompare (entries.map Prod.fst)
          if payloadKeys.length ≠ schemaFields.length then
            .error ("Schema validation failed: expected " ++
              toString schemaFields.length ++ " fields, got " ++
              toString payloadKeys.length)
          else
            let missing := schemaFields.filter (fun f => ¬ payloadKeys.contains f)
            if missing ≠ [] then
              .error ("Schema validation failed: missing fields: " ++
                String.intercalate ", " missing)
            else
              let extra := payloadKeys.filter (fun k => ¬ schemaFields.contains k)
              if extra ≠ [] then
                .error ("Schema validation failed: unexpected fields: " ++
                  String.intercalate ", " extra)
              else
                .ok (some schemaId,
                  schemaFields.map (fun k => (k, (lookupEntry entries k).getD (.vInt 0))))

/-- Model of `Serializer.serialize(payload, schemaIdOrSchemaObject)`: rejects
non-map payloads, runs schema selection, converts the effective payload to
its list of values, encodes it with the object coder, and calls `makePacket`
with `schema?.id || null` (so a schema id of 0 degrades to null). -/
def serialize (st : SerializerState) (comp : Option Compressor)
    (payload : Value) (schemaArg : Option SchemaRef) :
    Except String (SerializerState × List Nat) :=
  match payload with
  | .vMap entries =>
      match selectSchema st entries schemaArg with
      | .error e => .error e
      | .ok (schemaOpt, entries2) =>
          let out := coderEncode (.vArr (entries2.map Prod.snd))
          .ok (makePacket st comp out
            (match schemaOpt with
             | some s => if s ≠ 0 then some s else none
             | none => none))
  | _ => .error "Payload must be an object"

/-- Packet header description returned by `getPacketInfo`. -/
structure PacketInfo where
  version : Nat
  useCompress : Bool
  useCRC32 : Bool
  useSchema : Bool
  schemaId : Option Nat
  dataSize : Int
deriving DecidableEq, Repr

/-- Model of `Serializer.getPacketInfo`: header introspection.  Only the
packet-length lower bound 2 and, when the schema flag is set, the presence
of the 4-byte schema id are validated; a truncated CRC32 field is NOT
detected, which makes `dataSize` negative for CRC-flagged buffers of
length 2 to 5. -/
def getPacketInfo (buf0 : List Nat) : Except String PacketInfo :=
  let buffer := buf0.map (· % 256)
  if buffer.length < 2 then .error "Invalid packet: too short"
  else do
    let version ← bufToInt8U buffer 0
    let flags ← bufToBinFlags buffer 1
    let useCompress := flags.getD 0 false
    let useCRC32 := flags.getD 1 false
    let useSchema := flags.getD 2 false
    let offset := 2 + (if useCRC32 then 4 else 0)
    if useSchema then
      if buffer.length < offset + 4 then
        .error "Invalid packet: schema flag set but no schema id"
      else do
        let sid ← bufToInt32U buffer offset
        .ok ⟨version, useCompress, useCRC32, useSchema, some sid,
             (buffer.length : Int) - (offset + 4)⟩
    else
      .ok ⟨version, useCompress, useCRC32, useSchema, none,
           (buffer.length : Int) - offset⟩

/-- Model of `Serializer.deserialize`: version gate, flag decoding, schema
lookup (a hard error when the id is unknown), CRC32 verification over the
payload region exactly as it appears in the packet, decompression, object
decoding, and schema-based map reconstruction. -/
def deserialize (st : SerializerState) (comp : Option Compressor)
    (buf0 : List Nat) : Except String Value := do
  let buffer := buf0.map (· % 256)
  let version ← bufToInt8U buffer 0
  if version ≠ 3 then throw "Input data version mismatch"
  let flags ← bufToBinFlags buffer 1
  let useCompress := flags.getD 0 false
  let useCRC32 := flags.getD 1 false
  let useSchema := flags.getD 2 false
  let offset1 := if useCRC32 then 6 else 2
  let schemaRes ←
    if useSchema then do
      let sid ← bufToInt32U buffer offset1
      match getScheme st sid with
      | some cs => pure (cs, offset1 + 4)
      | none => throw "Cant find schema by id from payload"
    else pure (([] : List String), offset1)
  let currentSchema := schemaRes.1
  let payload := buffer.drop schemaRes.2
  if useCRC32 then do
    let stored ← bufToInt32U buffer 2
    if stored ≠ crc32Calc payload then throw "Input data CRC32 error"
  let payload2 ←
    if useCompress then
      match comp with
      | some c => pure ((c.decompress payload).map (· % 256))
      | none => throw "Packet compressed, but compressor plugin not used"
    else pure payload
  let decoded ← coderDecode payload2
  if useSchema ∧ currentSchema.length ≠ 0 then
    match decoded with
    | .vArr arr =>
        if arr.length ≠ currentSchema.length then
          throw ("Schema deserialization failed: expected " ++
            toString currentSchema.length ++ " values, got " ++
            toString arr.length)
        else
          pure (.vMap ((jsSort localeCompare currentSchema).zip arr))
    | _ => throw "Encoded payload not array but schema flag is present"
  else
    pure decoded

/-! ## Heap model of the registry accessors

Claim C5 is about JS reference semantics: whether the arrays handed out by
`getSchema` / `getRegisteredSchemas` alias the registry's own arrays.  The
pure model above cannot observe aliasing, so the registry is re-modelled
here with an explicit store of arrays addressed by references.  Mutating a
returned array is modelled by writing through its reference. -/

/-- Registry with explicit array store: `schemes` maps each id to a
reference (index) into `store`. -/
structure HeapRegistry where
  store : List (List String)
  schemes : List (Nat × Nat)
deriving DecidableEq, Repr

/-- Well-formedness: every registered reference points into the store. -/
def hWF (r : HeapRegistry) : Prop := ∀ p ∈ r.schemes, p.2 < r.store.length

/-- Read an array through a reference. -/
def hRead (r : HeapRegistry) (ref : Nat) : List String := r.store.getD ref []

/-- Mutate the array behind a reference (models the caller writing to an
array it received, e.g. `schema.push(...)`). -/
def hWrite (r : HeapRegistry) (ref : Nat) (v : List String) : HeapRegistry :=
  ⟨r.store.set ref v, r.schemes⟩

/-- Empty registry. -/
def hEmpty : HeapRegistry := ⟨[], []⟩

/-- Heap model of `registerSchema` (validations elided; they do not touch
the store): `[...fields].sort(...)` allocates a fresh array, which becomes
the registry's array for this id. -/
def hRegisterSchema (r : HeapRegistry) (id : Nat) (fields : List String) :
    HeapRegistry :=
  ⟨r.store ++ [jsSort localeCompare fields],
   insertScheme r.schemes id r.store.length⟩

/-- Heap model of `getSchema`: `return this.schemes[id] || null` hands out
the registry's own reference, not a copy. -/
def hGetSchema (r : HeapRegistry) (id : Nat) : Option Nat :=
  (r.schemes.find? (fun p => p.1 == id)).map Prod.snd

/-- Allocate copies of the listed arrays (`[...schema]` per entry),
returning the extended store and the id-to-fresh-reference pairs. -/
def hCopyAll : List (Nat × Nat) → List (List String) →
    List (List String) × List (Nat × Nat)
  | [], store => (store, [])
  | (id, ref) :: rest, store =>
      let out := hCopyAll rest (store ++ [store.getD ref []])
      (out.1, (id, store.length) :: out.2)

/-- Heap model of `getRegisteredSchemas`: builds a fresh copy of every
stored array and returns references to the copies. -/
def hGetRegisteredSchemas (r : HeapRegistry) : HeapRegistry × List (Nat × Nat) :=
  let out := hCopyAll r.schemes r.store
  (⟨out.1, r.schemes⟩, out.2)

/-- Helper for `insertScheme` membership reasoning: the inserted pair and
the original pairs are the only members. -/
theorem mem_insertScheme {l : List (Nat × α)} {id : Nat}
    {fs : α} {p : Nat × α}
    (h : p ∈ insertScheme l id fs) : p = (id, fs) ∨ p ∈ l := by
  induction l with
  | nil => simpa [insertScheme] using h
  | cons q rest ih =>
      rcases q with ⟨i, f⟩
      by_cases hc : id < i
      · simp only [insertScheme, if_pos hc, List.mem_cons] at h
        rcases h with h | h | h
        · exact Or.inl h
        · exact Or.inr (by simp [h])
        · exact Or.inr (List.mem_cons_of_mem _ h)
      · simp only [insertScheme, if_neg hc, List.mem_cons] at h
        rcases h with h | h
        · exact Or.inr (by simp [h])
        · rcases ih h with h2 | h2
          · exact Or.inl h2
          · exact Or.inr (List.mem_cons_of_mem _ h2)

/-! ## CRC-32 facts

The corruption-detection claim needs that changing a single byte of the
checked region always changes the checksum.  This follows from two
injectivity properties of the table-driven step function, which in turn
reduce to the 256 table entries having pairwise distinct top bytes. -/

/-- Division by a power of two distributes over xor. -/
theorem xor_div_pow (x y k : Nat) : (x ^^^ y) / 2 ^ k = x / 2 ^ k ^^^ y / 2 ^ k := by
  induction k with
  | zero => simp
  | succ k ih =>
      have h2 : (2 : Nat) ^ (k + 1) = 2 ^ k * 2 := by ring
      rw [h2, ← Nat.div_div_eq_div_mul, ← Nat.div_div_eq_div_mul,
        ← Nat.div_div_eq_div_mul, ih, Nat.xor_div_two]

/-- Remainder modulo a power of two distributes over xor. -/
theorem xor_mod_pow (x y k : Nat) : (x ^^^ y) % 2 ^ k = x % 2 ^ k ^^^ y % 2 ^ k := by
  apply Nat.eq_of_testBit_eq
  intro i
  simp only [Nat.testBit_mod_two_pow, Nat.testBit_xor]
  by_cases h : i < k <;> simp [h]

/-- Rearrangement: from `a ^^^ p = b ^^^ q` conclude `p ^^^ q = a ^^^ b`. -/
theorem xor_rearrange {a b p q : Nat} (h : a ^^^ p = b ^^^ q) :
    p ^^^ q = a ^^^ b := by
  have hp : p = a ^^^ (b ^^^ q) := by
    rw [← h, Nat.xor_cancel_left]
  rw [hp, Nat.xor_assoc, Nat.xor_cancel_right]

/-- Each round of the table generator keeps values below 2^32. -/
theorem crcRound_lt {c : Nat} (h : c < 2 ^ 32) : crcRound c < 2 ^ 32 := by
  unfold crcRound
  have hdiv : c / 2 < 2 ^ 32 := lt_of_le_of_lt (Nat.div_le_self c 2) h
  have hpoly : crcPoly < 2 ^ 32 := by norm_num [crcPoly]
  by_cases hc : c % 2 = 1
  · simpa [hc] using Nat.xor_lt_two_pow hpoly hdiv
  · simpa [hc] using hdiv

/-- Table entries of byte values stay below 2^32. -/
theorem crcTableEntry_lt {i : Nat} (h : i < 2 ^ 32) : crcTableEntry i < 2 ^ 32 := by
  unfold crcTableEntry
  exact crcRound_lt (crcRound_lt (crcRound_lt (crcRound_lt
    (crcRound_lt (crcRound_lt (crcRound_lt (crcRound_lt h)))))))

set_option maxRecDepth 10000 in
/-- Top bytes of the 256 CRC table entries are pairwise distinct
(finite check, decided by evaluation). -/
theorem crcTableTopNodup :
    (((List.range 256).map (fun i => crcTableEntry i / 16777216)).Nodup) := by
  decide

/-- Injectivity of the top byte of table entries on byte values. -/
theorem crcTableEntry_top_inj {i j : Nat} (hi : i < 256) (hj : j < 256)
    (h : crcTableEntry i / 16777216 = crcTableEntry j / 16777216) : i = j := by
  classical
  by_contra hne
  have hnd := crcTableTopNodup
  have hmap :
      ((List.range 256).map (fun i => crcTableEntry i / 16777216)).get? i =
      ((List.range 256).map (fun i => crcTableEntry i / 16777216)).get? j := by
    rw [List.get?_map, List.get?_map, List.get?_range hi, List.get?_range hj]
    simp [h]
  have := List.get?_inj (by simpa using hi) hnd hmap
  exact hne this

/-- Full injectivity of table entries on byte values. -/
theorem crcTableEntry_inj {i j : Nat} (hi : i < 256) (hj : j < 256)
    (h : crcTableEntry i = crcTableEntry j) : i = j :=
  crcTableEntry_top_inj hi hj (by rw [h])

/-- One CRC step keeps the running value below 2^32. -/
theorem crc32Step_lt {c : Nat} (b : Nat) (h : c < 2 ^ 32) : crc32Step c b < 2 ^ 32 := by
  unfold crc32Step
  exact Nat.xor_lt_two_pow (lt_of_le_of_lt (Nat.div_le_self _ _) h)
    (crcTableEntry_lt (lt_trans (Nat.mod_lt _ (by norm_num)) (by norm_num)))

/-- Folding CRC steps keeps the running value below 2^32. -/
theorem foldl_crc32Step_lt : ∀ (l : List Nat) (c : Nat), c < 2 ^ 32 →
    l.foldl crc32Step c < 2 ^ 32
  | [], _, h => h
  | b :: l, c, h => foldl_crc32Step_lt l (crc32Step c b) (crc32Step_lt b h)

/-- CRC-32 checksums are below 2^32. -/
theorem crc32Calc_lt (l : List Nat) : crc32Calc l < 2 ^ 32 :=
  Nat.xor_lt_two_pow (foldl_crc32Step_lt l _ (by norm_num)) (by norm_num)

/-- The CRC step is injective in the running value for a fixed byte. -/
theorem crc32Step_inj_state {c1 c2 b : Nat} (h1 : c1 < 2 ^ 32) (h2 : c2 < 2 ^ 32)
    (he : crc32Step c1 b = crc32Step c2 b) : c1 = c2 := by
  unfold crc32Step at he
  by_cases ht : (c1 ^^^ b) % 256 = (c2 ^^^ b) % 256
  · rw [ht] at he
    have hdiv : c1 / 256 = c2 / 256 := Nat.xor_left_inj.mp he
    have hmod : c1 % 256 = c2 % 256 := by
      have h1m : (c1 % 2 ^ 8) ^^^ (b % 2 ^ 8) = (c2 % 2 ^ 8) ^^^ (b % 2 ^ 8) := by
        rw [← xor_mod_pow, ← xor_mod_pow]
        simpa using ht
      have := Nat.xor_left_inj.mp h1m
      simpa using this
    rw [← Nat.div_add_mod c1 256, ← Nat.div_add_mod c2 256, hdiv, hmod]
  · exfalso
    have hx : crcTableEntry ((c1 ^^^ b) % 256) ^^^ crcTableEntry ((c2 ^^^ b) % 256) =
        (c1 / 256) ^^^ (c2 / 256) :=
      xor_rearrange he
    have hdivlt : ∀ c : Nat, c < 2 ^ 32 → c / 256 / 16777216 = 0 := by
      intro c hc
      have : c / 256 / 16777216 = c / 2 ^ 32 := by
        rw [Nat.div_div_eq_div_mul]; norm_num
      rw [this]
      exact Nat.div_eq_of_lt hc
    have htop : crcTableEntry ((c1 ^^^ b) % 256) / 16777216 =
        crcTableEntry ((c2 ^^^ b) % 256) / 16777216 := by
      have h0 : (crcTableEntry ((c1 ^^^ b) % 256) ^^^
          crcTableEntry ((c2 ^^^ b) % 256)) / 16777216 = 0 := by
        rw [hx]
        have := xor_div_pow (c1 / 256) (c2 / 256) 24
        norm_num at this
        rw [this, hdivlt c1 h1, hdivlt c2 h2]
        simp
      have := xor_div_pow (crcTableEntry ((c1 ^^^ b) % 256))
        (crcTableEntry ((c2 ^^^ b) % 256)) 24
      norm_num at this
      rw [this] at h0
      exact Nat.xor_eq_zero.mp h0
    exact ht (crcTableEntry_top_inj (Nat.mod_lt _ (by norm_num))
      (Nat.mod_lt _ (by norm_num)) htop)

/-- The CRC step is injective in the byte for a fixed running value. -/
theorem crc32Step_inj_byte {c b1 b2 : Nat} (hb1 : b1 < 256) (hb2 : b2 < 256)
    (hne : b1 ≠ b2) : crc32Step c b1 ≠ crc32Step c b2 := by
  intro he
  unfold crc32Step at he
  have htab : crcTableEntry ((c ^^^ b1) % 256) = crcTableEntry ((c ^^^ b2) % 256) :=
    Nat.xor_right_inj.mp he
  have ht : (c ^^^ b1) % 256 = (c ^^^ b2) % 256 :=
    crcTableEntry_inj (Nat.mod_lt _ (by norm_num)) (Nat.mod_lt _ (by norm_num)) htab
  have h8 : (c % 2 ^ 8) ^^^ (b1 % 2 ^ 8) = (c % 2 ^ 8) ^^^ (b2 % 2 ^ 8) := by
    rw [← xor_mod_pow, ← xor_mod_pow]
    simpa using ht
  have := Nat.xor_right_inj.mp h8
  exact hne (by omega)

/-- Folding CRC steps over a common suffix preserves distinctness of the
running values. -/
theorem foldl_crc32Step_inj : ∀ (l : List Nat) (c1 c2 : Nat), c1 < 2 ^ 32 →
    c2 < 2 ^ 32 → c1 ≠ c2 → l.foldl crc32Step c1 ≠ l.foldl crc32Step c2
  | [], _, _, _, _, hne => hne
  | b :: l, c1, c2, h1, h2, hne =>
      foldl_crc32Step_inj l (crc32Step c1 b) (crc32Step c2 b)
        (crc32Step_lt b h1) (crc32Step_lt b h2)
        (fun he => hne (crc32Step_inj_state h1 h2 he))

/-- Changing one byte of the data always changes the CRC-32 checksum. -/
theorem crc32Calc_flip {pre suf : List Nat} {b1 b2 : Nat} (hb1 : b1 < 256)
    (hb2 : b2 < 256) (hne : b1 ≠ b2) :
    crc32Calc (pre ++ b1 :: suf) ≠ crc32Calc (pre ++ b2 :: suf) := by
  intro he
  unfold crc32Calc at he
  have he2 := Nat.xor_left_inj.mp he
  rw [List.foldl_append, List.foldl_append] at he2
  simp only [List.foldl_cons] at he2
  set c := pre.foldl crc32Step 0xFFFFFFFF with hc
  have hclt : c < 2 ^ 32 := foldl_crc32Step_lt pre _ (by norm_num)
  exact foldl_crc32Step_inj suf (crc32Step c b1) (crc32Step c b2)
    (crc32Step_lt b1 hclt) (crc32Step_lt b2 hclt)
    (crc32Step_inj_byte hb1 hb2 hne) he2

/-! ## Byte-range and buffer facts -/

/-- Digits produced by the fuelled base-256 expansion are bytes. -/
theorem natDigitsGo_lt : ∀ (fuel n : Nat), ∀ b ∈ natDigitsGo fuel n, b < 256
  | _, 0, b, hb => by simp [natDigitsGo] at hb
  | 0, _ + 1, b, hb => by simp [natDigitsGo] at hb
  | fuel + 1, n + 1, b, hb => by
      simp only [natDigitsGo, List.mem_cons] at hb
      rcases hb with hb | hb
      · subst hb; exact Nat.mod_lt _ (by norm_num)
      · exact natDigitsGo_lt fuel ((n + 1) / 256) b hb

/-- Bytes of the self-delimited natural encoding are below 256. -/
theorem encNatSD_lt (n : Nat) : ∀ b ∈ encNatSD n, b < 256 := by
  intro b hb
  simp only [encNatSD, List.mem_append, List.mem_cons, List.mem_replicate] at hb
  rcases hb with hb | hb | hb
  · omega
  · omega
  · exact natDigitsGo_lt n n b hb

/-- Bytes of the string encoding are below 256. -/
theorem encStr_lt (s : String) : ∀ b ∈ encStr s, b < 256 := by
  intro b hb
  simp only [encStr, List.mem_append] at hb
  rcases hb with hb | hb
  · exact encNatSD_lt _ b hb
  · rw [List.mem_flatten] at hb
    rcases hb with ⟨l, hl, hb⟩
    rw [List.mem_map] at hl
    rcases hl with ⟨c, _, rfl⟩
    exact encNatSD_lt _ b hb

mutual

/-- Bytes produced by the modelled object coder are below 256. -/
theorem coderEncode_lt : ∀ (v : Value), ∀ b ∈ coderEncode v, b < 256
  | .vInt n, b, hb => by
      simp only [coderEncode, List.mem_cons] at hb
      rcases hb with hb | hb | hb
      · omega
      · split at hb <;> omega
      · exact encNatSD_lt _ b hb
  | .vStr s, b, hb => by
      simp only [coderEncode, List.mem_cons] at hb
      rcases hb with hb | hb
      · omega
      · exact encStr_lt s b hb
  | .vArr l, b, hb => by
      simp only [coderEncode, List.mem_cons, List.mem_append] at hb
      rcases hb with (hb | hb) | hb
      · omega
      · exact encNatSD_lt _ b hb
      · exact encodeList_lt l b hb
  | .vMap l, b, hb => by
      simp only [coderEncode, List.mem_cons, List.mem_append] at hb
      rcases hb with (hb | hb) | hb
      · omega
      · exact encNatSD_lt _ b hb
      · exact encodeEntries_lt l b hb

/-- Bytes of a list-of-values encoding are below 256. -/
theorem encodeList_lt : ∀ (l : List Value), ∀ b ∈ encodeList l, b < 256
  | [], b, hb => by simp [encodeList] at hb
  | v :: vs, b, hb => by
      simp only [encodeList, List.mem_append] at hb
      rcases hb with hb | hb
      · exact coderEncode_lt v b hb
      · exact encodeList_lt vs b hb

/-- Bytes of a map-entries encoding are below 256. -/
theorem encodeEntries_lt : ∀ (l : List (String × Value)), ∀ b ∈ encodeEntries l, b < 256
  | [], b, hb => by simp [encodeEntries] at hb
  | (k, v) :: rest, b, hb => by
      simp only [encodeEntries, List.mem_append] at hb
      rcases hb with (hb | hb) | hb
      · exact encStr_lt k b hb
      · exact coderEncode_lt v b hb
      · exact encodeEntries_lt rest b hb

end

/-- Normalization `Buffer.from` is the identity on byte lists. -/
theorem mapMod_eq_self {l : List Nat} (h : ∀ b ∈ l, b < 256) :
    l.map (· % 256) = l := by
  induction l with
  | nil => rfl
  | cons a l ih =>
      simp only [List.map_cons]
      rw [Nat.mod_eq_of_lt (h a (by simp)), ih (fun b hb => h b (by simp [hb]))]

/-- Bytes of the 4-byte little-endian integer encoding are below 256. -/
theorem int32UToBuf_lt (n : Nat) (be : Bool) : ∀ b ∈ int32UToBuf n be, b < 256 := by
  intro b hb
  unfold int32UToBuf at hb
  split at hb <;> simp only [List.mem_reverse] at hb <;>
    · simp only [List.mem_cons] at hb
      rcases hb with hb | hb | hb | hb | hb <;>
        first
          | (subst hb; exact Nat.mod_lt _ (by norm_num))
          | simp at hb

/-- Little-endian writing followed by little-endian reading recovers values
below 2^32. -/
theorem int32_roundtrip {n : Nat} (h : n < 2 ^ 32) (pre suf : List Nat) :
    bufToInt32U (pre ++ int32UToBuf n ++ suf) pre.length = .ok n := by
  have hsplit : (pre ++ int32UToBuf n ++ suf).drop pre.length =
      int32UToBuf n ++ suf := by
    rw [List.append_assoc, List.drop_left]
  unfold bufToInt32U
  rw [hsplit]
  simp only [int32UToBuf, if_neg (by simp : ¬ (false : Bool) = true)]
  norm_num
  omega

/-- Length of the 4-byte integer encoding. -/
theorem int32UToBuf_length (n : Nat) (be : Bool) : (int32UToBuf n be).length = 4 := by
  unfold int32UToBuf
  split <;> simp

/-- Flag byte for three slots: value and bit extraction. -/
theorem binFlagsToBuf_three (a b c : Bool) :
    binFlagsToBuf [a, b, c] =
      [(if a then 128 else 0) + (if b then 64 else 0) + (if c then 32 else 0)] := by
  cases a <;> cases b <;> cases c <;> rfl

/-- Flag-byte bit 7 is the first slot. -/
theorem flagsByte_testBit7 (a b c : Bool) :
    (((if a then 128 else 0) + (if b then 64 else 0) + (if c then 32 else 0)) : Nat).testBit 7 = a := by
  cases a <;> cases b <;> cases c <;> decide

/-- Flag-byte bit 6 is the second slot. -/
theorem flagsByte_testBit6 (a b c : Bool) :
    (((if a then 128 else 0) + (if b then 64 else 0) + (if c then 32 else 0)) : Nat).testBit 6 = b := by
  cases a <;> cases b <;> cases c <;> decide

/-- Flag-byte bit 5 is the third slot. -/
theorem flagsByte_testBit5 (a b c : Bool) :
    (((if a then 128 else 0) + (if b then 64 else 0) + (if c then 32 else 0)) : Nat).testBit 5 = c := by
  cases a <;> cases b <;> cases c <;> decide

/-! ## Packet shape facts -/

/-- Flag byte value for the three used slots. -/
def flagsByteVal (a b c : Bool) : Nat :=
  (if a then 128 else 0) + (if b then 64 else 0) + (if c then 32 else 0)

/-- Flag bytes are below 256. -/
theorem flagsByteVal_lt (a b c : Bool) : flagsByteVal a b c < 256 := by
  unfold flagsByteVal
  split <;> split <;> split <;> norm_num

/-- The three-slot flag packer produces exactly the flag byte value. -/
theorem binFlagsToBuf_val (a b c : Bool) :
    binFlagsToBuf [a, b, c] = [flagsByteVal a b c] := by
  cases a <;> cases b <;> cases c <;> rfl

/-- Successful schema selection with a schema id implies the id is in the
registry. -/
theorem selectSchema_ok_some {st : SerializerState} {entries : List (String × Value)}
    {sr : Option SchemaRef} {s : Nat} {e2 : List (String × Value)}
    (h : selectSchema st entries sr = .ok (some s, e2)) :
    ∃ f, getScheme st s = some f := by
  unfold selectSchema at h
  cases hdet : detectId st entries sr with
  | none => rw [hdet] at h; simp at h
  | some sid =>
      rw [hdet] at h
      simp only at h
      cases hg : getScheme st sid with
      | none => rw [hg] at h; simp at h
      | some fields =>
          rw [hg] at h
          simp only at h
          split at h
          · simp at h
          · split at h
            · simp at h
            · split at h
              · simp at h
              · simp only [Except.ok.injEq, Prod.mk.injEq, Option.some.injEq] at h
                exact ⟨fields, by rw [← h.1]; exact hg⟩

/-- Successful serialization factors through `makePacket` applied to the
object-coder output, and any schema id it passes along is a nonzero
registered id. -/
theorem serialize_ok_shape {st : SerializerState} {comp : Option Compressor}
    {payload : Value} {sr : Option SchemaRef} {st' : SerializerState} {pkt : List Nat}
    (h : serialize st comp payload sr = .ok (st', pkt)) :
    ∃ (vals : List Value) (sch : Option Nat),
      (st', pkt) = makePacket st comp (coderEncode (.vArr vals)) sch ∧
      (∀ s, sch = some s → s ≠ 0 ∧ ∃ f, getScheme st s = some f) := by
  unfold serialize at h
  match payload with
  | .vInt _ => simp at h
  | .vStr _ => simp at h
  | .vArr _ => simp at h
  | .vMap entries =>
      simp only at h
      cases hsel : selectSchema st entries sr with
      | error e => rw [hsel] at h; simp at h
      | ok pr =>
          rcases pr with ⟨schemaOpt, entries2⟩
          rw [hsel] at h
          simp only [Except.ok.injEq] at h
          cases schemaOpt with
          | none =>
              exact ⟨entries2.map Prod.snd, none, h.symm, by simp⟩
          | some s0 =>
              by_cases h0 : s0 = 0
              · refine ⟨entries2.map Prod.snd, none, ?_, by simp⟩
                rw [← h]
                simp [h0]
              · refine ⟨entries2.map Prod.snd, some s0, ?_, ?_⟩
                · rw [← h]
                  simp [h0]
                · intro s hs
                  cases hs
                  exact ⟨h0, selectSchema_ok_some hsel⟩


theorem exc_throw (e : String) : (throw e : Except String α) = .error e := rfl

theorem exc_bind_ok (a : α) (f : α → Except String β) :
    (Except.ok a : Except String α) >>= f = f a := rfl

theorem exc_bind_err (e : String) (f : α → Except String β) :
    (Except.error e : Except String α) >>= f = Except.error e := rfl

theorem exc_pure (a : α) : (pure a : Except String α) = .ok a := rfl

theorem bufToInt8U_zero (a : Nat) (l : List Nat) : bufToInt8U (a :: l) 0 = .ok a := rfl

theorem bufToBinFlags_one (a b : Nat) (l : List Nat) :
    bufToBinFlags (a :: b :: l) 1 =
      .ok [b.testBit 7, b.testBit 6, b.testBit 5, b.testBit 4,
           b.testBit 3, b.testBit 2, b.testBit 1, b.testBit 0] := rfl

theorem flagsByteVal_testBit7 (a b c : Bool) : (flagsByteVal a b c).testBit 7 = a := by
  cases a <;> cases b <;> cases c <;> decide

theorem flagsByteVal_testBit6 (a b c : Bool) : (flagsByteVal a b c).testBit 6 = b := by
  cases a <;> cases b <;> cases c <;> decide

theorem flagsByteVal_testBit5 (a b c : Bool) : (flagsByteVal a b c).testBit 5 = c := by
  cases a <;> cases b <;> cases c <;> decide

theorem packetBytes_lt (en crcF us : Bool) (c : Nat) (schB body : List Nat)
    (hs : ∀ b ∈ schB, b < 256) (hb : ∀ b ∈ body, b < 256) :
    ∀ b ∈ [3, flagsByteVal en crcF us] ++ int32UToBuf c ++ schB ++ body, b < 256 := by
  intro b hmem
  simp only [List.append_assoc, List.mem_append, List.mem_cons, List.not_mem_nil] at hmem
  rcases hmem with (hb1 | hb1 | hb1) | hb1 | hb1 | hb1
  · omega
  · subst hb1; exact flagsByteVal_lt _ _ _
  · simp at hb1
  · exact int32UToBuf_lt c false b hb1
  · exact hs b hb1
  · exact hb b hb1

theorem deserialize_crc_error
    {st : SerializerState} {comp : Option Compressor}
    (en us : Bool) (c : Nat) (schB body : List Nat)
    (hc : c < 2 ^ 32)
    (hbody : ∀ b ∈ body, b < 256)
    (hsch : (us = false ∧ schB = []) ∨
            (us = true ∧ ∃ sid f, sid < 2 ^ 32 ∧ schB = int32UToBuf sid ∧
              getScheme st sid = some f))
    (hcrc : c ≠ crc32Calc body) :
    deserialize st comp
      ([3, flagsByteVal en true us] ++ int32UToBuf c ++ schB ++ body) =
      .error "Input data CRC32 error" := by
  rcases hsch with ⟨hus, hschB⟩ | ⟨hus, sid, f, hsid, hschB, hget⟩
  · subst hus; subst hschB
    have hbytes := packetBytes_lt en true false c [] body (by simp) hbody
    have hcrcread : bufToInt32U (3 :: flagsByteVal en true false :: (int32UToBuf c ++ body)) 2 = .ok c := by
      have := int32_roundtrip hc [3, flagsByteVal en true false] body
      simpa [List.append_assoc, List.cons_append] using this
    have hdrop6 : (3 :: flagsByteVal en true false :: (int32UToBuf c ++ body)).drop 6 = body := by
      have h6 : ([3, flagsByteVal en true false] ++ int32UToBuf c).length = 6 := by
        simp [int32UToBuf_length]
      have := @List.drop_left' _ _ body _ h6
      simpa [List.append_assoc, List.cons_append] using this
    unfold deserialize
    rw [mapMod_eq_self hbytes]
    simp only [List.append_assoc, List.cons_append, List.nil_append]
    simp only [bufToInt8U_zero, bufToBinFlags_one, exc_bind_ok, exc_bind_err, exc_pure,
      exc_throw, flagsByteVal_testBit7, flagsByteVal_testBit6, flagsByteVal_testBit5,
      List.getD_cons_zero, List.getD_cons_succ, hcrcread, hdrop6, hcrc,
      ne_eq, ite_true, ite_false, if_true, if_false]
    simp [hcrcread, hdrop6, hcrc, exc_bind_ok, exc_bind_err]
  · subst hus; subst hschB
    have hbytes := packetBytes_lt en true true c (int32UToBuf sid) body (int32UToBuf_lt sid false) hbody
    have hcrcread : bufToInt32U (3 :: flagsByteVal en true true :: (int32UToBuf c ++ (int32UToBuf sid ++ body))) 2 = .ok c := by
      have := int32_roundtrip hc [3, flagsByteVal en true true] (int32UToBuf sid ++ body)
      simpa [List.append_assoc, List.cons_append] using this
    have hsidread : bufToInt32U (3 :: flagsByteVal en true true :: (int32UToBuf c ++ (int32UToBuf sid ++ body))) 6 = .ok sid := by
      have h := int32_roundtrip hsid ([3, flagsByteVal en true true] ++ int32UToBuf c) body
      have h6 : ([3, flagsByteVal en true true] ++ int32UToBuf c).length = 6 := by
        simp [int32UToBuf_length]
      rw [h6] at h
      simpa [List.append_assoc, List.cons_append] using h
    have hdrop10 : (3 :: flagsByteVal en true true :: (int32UToBuf c ++ (int32UToBuf sid ++ body))).drop 10 = body := by
      have h10 : ([3, flagsByteVal en true true] ++ int32UToBuf c ++ int32UToBuf sid).length = 10 := by
        simp [int32UToBuf_length]
      have := @List.drop_left' _ _ body _ h10
      simpa [List.append_assoc, List.cons_append] using this
    unfold deserialize
    rw [mapMod_eq_self hbytes]
    simp only [List.append_assoc, List.cons_append, List.nil_append]
    simp only [bufToInt8U_zero, bufToBinFlags_one, exc_bind_ok, exc_bind_err, exc_pure,
      exc_throw, flagsByteVal_testBit7, flagsByteVal_testBit6, flagsByteVal_testBit5,
      List.getD_cons_zero, List.getD_cons_succ, hcrcread, hsidread, hget, hdrop10, hcrc,
      ne_eq, ite_true, ite_false, if_true, if_false]
    simp [hcrcread, hsidread, hget, hdrop10, hcrc, exc_bind_ok, exc_bind_err]

/-- Setting one entry splits the list around the changed position. -/
theorem set_eq_take_cons_drop : ∀ (l : List α) (j : Nat), j < l.length → ∀ (x : α),
    l.set j x = l.take j ++ x :: l.drop (j + 1)
  | _ :: _, 0, _, _ => rfl
  | a :: l, j + 1, h, x => by
      simp only [List.set_cons_succ, List.take_succ_cons, List.drop_succ_cons,
        List.cons_append, List.cons.injEq, true_and]
      exact set_eq_take_cons_drop l j (by simpa using h) x

/-- Changing one in-range byte changes the CRC-32 checksum. -/
theorem crc32Calc_set_ne {l : List Nat} {j : Nat} (hj : j < l.length) {x : Nat}
    (hlt : ∀ b ∈ l, b < 256) (hx : x < 256) (hne : x ≠ l.getD j 0) :
    crc32Calc (l.set j x) ≠ crc32Calc l := by
  have hdecomp : l = l.take j ++ l.getD j 0 :: l.drop (j + 1) := by
    conv_lhs => rw [← List.take_append_drop j l]
    rw [List.drop_eq_getElem_cons hj, List.getD_eq_getElem l 0 hj]
  have hset := set_eq_take_cons_drop l j hj x
  have hmem : l.getD j 0 ∈ l := by
    rw [List.getD_eq_getElem l 0 hj]
    exact List.getElem_mem hj
  rw [hset]
  conv_rhs => rw [hdecomp]
  exact crc32Calc_flip hx (hlt _ hmem) hne


/-- Structural form of `makePacket`: updated state, then version byte, flag
byte, optional CRC field, optional schema-id field, and payload. -/
theorem makePacket_eq (st : SerializerState) (comp : Option Compressor)
    (data : List Nat) (sch : Option Nat) :
    makePacket st comp data sch =
      (makePacketState st comp data.length sch,
       [3, flagsByteVal (makePacketState st comp data.length sch).enableCompression
             (makePacketState st comp data.length sch).optUseCRC32
             (makePacketState st comp data.length sch).optUseSchema] ++
       (if (makePacketState st comp data.length sch).optUseCRC32 = true
        then int32UToBuf
          (crc32Calc (compressedOut (makePacketState st comp data.length sch) comp data))
        else []) ++
       schemaPartBytes sch ++
       compressedOut (makePacketState st comp data.length sch) comp data) := by
  simp only [makePacket]
  rw [binFlagsToBuf_val]
  simp [int8UToBuf, List.append_assoc]


/-! ## Claim C10 -/

/-- C10: for every input buffer of length at least 2 whose flag byte has
`useCRC32` set (bit 6) and `useSchema` clear (bit 5), `getPacketInfo`
succeeds and returns `dataSize` equal to the buffer length minus 6; in
particular for lengths 2 through 5 the returned `dataSize` is negative, so
truncation of the CRC32 field is not detected and no too-short error is
raised. -/
theorem c10_getPacketInfo_dataSize (buf : List Nat)
    (hlen : 2 ≤ buf.length)
    (hcrc : ((buf.getD 1 0) % 256).testBit 6 = true)
    (hsch : ((buf.getD 1 0) % 256).testBit 5 = false) :
    getPacketInfo buf = .ok
      ⟨buf.getD 0 0 % 256, ((buf.getD 1 0) % 256).testBit 7, true, false, none,
       (buf.length : Int) - 6⟩ ∧
    (buf.length ≤ 5 → ((buf.length : Int) - 6 < 0)) := by
  rcases buf with _ | ⟨b0, _ | ⟨b1, rest⟩⟩
  · simp at hlen
  · simp at hlen
  · simp only [List.getD_cons_succ, List.getD_cons_zero] at hcrc hsch ⊢
    constructor
    · unfold getPacketInfo
      rw [if_neg (by simp)]
      simp only [List.map_cons, bufToInt8U_zero, bufToBinFlags_one, exc_bind_ok,
        List.getD_cons_zero, List.getD_cons_succ, hcrc, hsch,
        ite_true, ite_false, if_false]
      rw [if_neg (by simp)]
      simp only [Except.ok.injEq, PacketInfo.mk.injEq, List.length_cons, List.length_map,
        eq_self_iff_true, true_and, and_true]
      push_cast
      omega
    · intro h
      simp only [List.length_cons] at h ⊢
      omega

/-- C3 amended: the CRC32 header field is written by `makePacket` with the
little-endian default of `int32UToBuf` (low byte first) and read back with
the little-endian default of `bufToInt32U`, consistently recovering the
checksum of the (possibly compressed) payload. -/
theorem c3_little_endian_consistent (st : SerializerState) (comp : Option Compressor)
    (data : List Nat) (sch : Option Nat) (hcrc : st.optUseCRC32 = true) :
    (((makePacket st comp data sch).2.drop 2).take 4 =
      int32UToBuf (crc32Calc (compressedOut (makePacketState st comp data.length sch) comp data))) ∧
    (bufToInt32U (makePacket st comp data sch).2 2 =
      .ok (crc32Calc (compressedOut (makePacketState st comp data.length sch) comp data))) ∧
    (∀ n : Nat, int32UToBuf n =
      [n % 256, n / 256 % 256, n / 65536 % 256, n / 16777216 % 256]) := by
  have hcrc2 : (makePacketState st comp data.length sch).optUseCRC32 = true := by
    unfold makePacketState
    cases comp <;> cases sch <;> simp [hcrc]
  rw [makePacket_eq]
  simp only [hcrc2, if_true, ite_true]
  refine ⟨?_, ?_, fun n => rfl⟩
  · have hdrop : ([3, flagsByteVal (makePacketState st comp data.length sch).enableCompression
        true (makePacketState st comp data.length sch).optUseSchema] : List Nat).length = 2 := rfl
    rw [List.append_assoc, List.append_assoc, List.drop_left' hdrop,
      List.take_left' (int32UToBuf_length _ false)]
  · have := int32_roundtrip
      (crc32Calc_lt (compressedOut (makePacketState st comp data.length sch) comp data))
      [3, flagsByteVal (makePacketState st comp data.length sch).enableCompression
        (makePacketState st comp data.length sch).optUseCRC32
        (makePacketState st comp data.length sch).optUseSchema]
      (schemaPartBytes sch ++ compressedOut (makePacketState st comp data.length sch) comp data)
    simpa [List.append_assoc] using this

/-- C10 witness: the concrete two-byte buffer `[3, 64]` (version 3, flag
byte with only the CRC bit set) yields `dataSize = -4` without error. -/
theorem c10_getPacketInfo_dataSize_witness :
    getPacketInfo [3, 64] = .ok ⟨3, false, true, false, none, -4⟩ ∧
    ((([3, 64] : List Nat).length : Int) - 6 < 0) := by
  have h := c10_getPacketInfo_dataSize [3, 64] (by decide) (by decide) (by decide)
  exact ⟨by rw [h.1]; rfl, h.2 (by decide)⟩

/-- C3 counterexample: serializing `{a: 1}` on a default serializer writes
the CRC32 field at bytes 2-5 in little-endian order; the big-endian encoding
of the same checksum differs, so the header integers are not big-endian. -/
theorem c3_counterexample :
    (serialize initialState none (.vMap [("a", .vInt 1)]) none).map
        (fun r => (r.2.drop 2).take 4) = .ok [178, 181, 204, 185] ∧
    int32UToBuf (crc32Calc (coderEncode (.vArr [.vInt 1]))) true =
      [185, 204, 181, 178] ∧
    ([178, 181, 204, 185] : List Nat) ≠ [185, 204, 181, 178] := by
  refine ⟨by rfl, by rfl, by decide⟩

/-- C3 amended witness: concrete three-byte data on the default serializer;
the field holds the little-endian bytes of the checksum and reads back. -/
theorem c3_little_endian_consistent_witness :
    ((makePacket initialState none [1, 2, 3] none).2.drop 2).take 4 =
      int32UToBuf (crc32Calc [1, 2, 3]) ∧
    bufToInt32U (makePacket initialState none [1, 2, 3] none).2 2 =
      .ok (crc32Calc [1, 2, 3]) := by
  have h := c3_little_endian_consistent initialState none [1, 2, 3] none rfl
  exact ⟨h.1, h.2.1⟩

/-! ## Claim C6 -/

/-- Characters are determined by their code points. -/
theorem char_toNat_inj {x y : Char} (h : x.toNat = y.toNat) : x = y :=
  Char.ext (UInt32.ext h)

/-- Lexicographic comparison of a list with itself is 0. -/
theorem cmpNatList_self : ∀ l : List Nat, cmpNatList l l = 0
  | [] => rfl
  | a :: l => by
      simp only [cmpNatList, lt_irrefl, if_false]
      exact cmpNatList_self l

/-- Lexicographic comparison is 0 only on equal lists. -/
theorem cmpNatList_eq_zero : ∀ {l m : List Nat}, cmpNatList l m = 0 → l = m
  | [], [], _ => rfl
  | [], _ :: _, h => by simp [cmpNatList] at h
  | _ :: _, [], h => by simp [cmpNatList] at h
  | a :: l, b :: m, h => by
      simp only [cmpNatList] at h
      by_cases h1 : a < b
      · rw [if_pos h1] at h; simp at h
      · by_cases h2 : b < a
        · rw [if_neg h1, if_pos h2] at h; simp at h
        · rw [if_neg h1, if_neg h2] at h
          have hab : a = b := by omega
          rw [hab, cmpNatList_eq_zero h]

/-- Primary weight of a lowercase ASCII letter. -/
theorem primaryWeight_lower {c : Char} (h : 97 ≤ c.toNat ∧ c.toNat ≤ 122) :
    primaryWeight c = 10 + (c.toNat - 97) := by
  unfold primaryWeight
  rw [if_neg (by omega), if_neg (by omega), if_pos (by omega)]

/-- Case weight of a lowercase ASCII letter is 0. -/
theorem caseWeight_lower {c : Char} (h : 97 ≤ c.toNat ∧ c.toNat ≤ 122) :
    caseWeight c = 0 := by
  unfold caseWeight
  rw [if_neg (by omega)]

/-- On lowercase ASCII character lists, the primary-weight comparison
coincides with the code-point comparison. -/
theorem cmp_primary_eq_toNat : ∀ (la lb : List Char),
    (∀ c ∈ la, 97 ≤ c.toNat ∧ c.toNat ≤ 122) →
    (∀ c ∈ lb, 97 ≤ c.toNat ∧ c.toNat ≤ 122) →
    cmpNatList (la.map primaryWeight) (lb.map primaryWeight) =
      cmpNatList (la.map Char.toNat) (lb.map Char.toNat)
  | [], [], _, _ => rfl
  | [], _ :: _, _, _ => rfl
  | _ :: _, [], _, _ => rfl
  | x :: la, y :: lb, ha, hb => by
      have hx := ha x (by simp)
      have hy := hb y (by simp)
      simp only [List.map_cons, cmpNatList]
      rw [primaryWeight_lower hx, primaryWeight_lower hy]
      by_cases h1 : x.toNat < y.toNat
      · rw [if_pos (by omega), if_pos h1]
      · by_cases h2 : y.toNat < x.toNat
        · rw [if_neg (by omega), if_pos (by omega), if_neg h1, if_pos h2]
        · rw [if_neg (by omega), if_neg (by omega), if_neg h1, if_neg h2]
          exact cmp_primary_eq_toNat la lb
            (fun c hc => ha c (List.mem_cons_of_mem _ hc))
            (fun c hc => hb c (List.mem_cons_of_mem _ hc))

/-- Code-point images determine character lists. -/
theorem map_toNat_inj : ∀ {la lb : List Char},
    la.map Char.toNat = lb.map Char.toNat → la = lb
  | [], [], _ => rfl
  | [], _ :: _, h => by simp at h
  | _ :: _, [], h => by simp at h
  | x :: la, y :: lb, h => by
      simp only [List.map_cons, List.cons.injEq] at h
      rw [char_toNat_inj h.1, map_toNat_inj h.2]

/-- All-lowercase ASCII strings compare identically under the locale model
and the ordinal (code-unit) comparison. -/
theorem localeCompare_eq_ordinal_lower {a b : String}
    (ha : ∀ c ∈ a.data, 97 ≤ c.toNat ∧ c.toNat ≤ 122)
    (hb : ∀ c ∈ b.data, 97 ≤ c.toNat ∧ c.toNat ≤ 122) :
    localeCompare a b = ordinalCompare a b := by
  unfold localeCompare ordinalCompare
  rw [cmp_primary_eq_toNat a.data b.data ha hb]
  by_cases h0 : cmpNatList (a.data.map Char.toNat) (b.data.map Char.toNat) = 0
  · have hdata : a.data = b.data := map_toNat_inj (cmpNatList_eq_zero h0)
    rw [hdata]
    simp [cmpNatList_self]
  · simp only [ne_eq, h0, not_false_iff, if_true]

/-- Members of a sorted insertion are the new element or old members. -/
theorem mem_jsSortInsert {cmp : α → α → Int} {x y : α} :
    ∀ {l : List α}, y ∈ jsSortInsert cmp x l → y = x ∨ y ∈ l
  | [], h => by simpa [jsSortInsert] using h
  | z :: l, h => by
      unfold jsSortInsert at h
      split at h
      · simp only [List.mem_cons] at h
        rcases h with h | h
        · exact Or.inl h
        · exact Or.inr (by simpa using h)
      · simp only [List.mem_cons] at h
        rcases h with h | h
        · exact Or.inr (by simp [h])
        · rcases mem_jsSortInsert h with h2 | h2
          · exact Or.inl h2
          · exact Or.inr (List.mem_cons_of_mem _ h2)

/-- Insertion only consults the comparator on the element and the list. -/
theorem jsSortInsert_congr (P : α → Prop) {cmp1 cmp2 : α → α → Int}
    (hagree : ∀ u v, P u → P v → cmp1 u v = cmp2 u v) (x : α) (hx : P x) :
    ∀ (l : List α), (∀ y ∈ l, P y) → jsSortInsert cmp1 x l = jsSortInsert cmp2 x l
  | [], _ => rfl
  | y :: l, hl => by
      unfold jsSortInsert
      rw [hagree x y hx (hl y (by simp))]
      split
      · rfl
      · rw [jsSortInsert_congr P hagree x hx l (fun z hz => hl z (List.mem_cons_of_mem _ hz))]

/-- Sorting only consults the comparator on elements of the list. -/
theorem jsSort_congr (P : α → Prop) {cmp1 cmp2 : α → α → Int}
    (hagree : ∀ u v, P u → P v → cmp1 u v = cmp2 u v) :
    ∀ (l acc : List α), (∀ y ∈ l, P y) → (∀ y ∈ acc, P y) →
      l.foldl (fun a x => jsSortInsert cmp1 x a) acc =
      l.foldl (fun a x => jsSortInsert cmp2 x a) acc
  | [], _, _, _ => rfl
  | x :: l, acc, hl, hacc => by
      simp only [List.foldl_cons]
      rw [jsSortInsert_congr P hagree x (hl x (by simp)) acc hacc]
      exact jsSort_congr P hagree l _ (fun y hy => hl y (List.mem_cons_of_mem _ hy))
        (fun y hy => by
          rcases mem_jsSortInsert hy with h | h
          · exact h ▸ hl x (by simp)
          · exact hacc y h)

/-- A field list whose strings are all lowercase ASCII sorts identically
under the locale comparator and the ordinal comparator. -/
theorem jsSort_locale_eq_ordinal {fields : List String}
    (h : ∀ f ∈ fields, ∀ c ∈ f.data, 97 ≤ c.toNat ∧ c.toNat ≤ 122) :
    jsSort localeCompare fields = jsSort ordinalCompare fields := by
  unfold jsSort
  exact jsSort_congr (fun s => ∀ c ∈ s.data, 97 ≤ c.toNat ∧ c.toNat ≤ 122)
    (fun u v hu hv => localeCompare_eq_ordinal_lower hu hv)
    fields [] h (by simp)

/-- Lookup after sorted insertion of a fresh id finds the new entry. -/
theorem find?_insertScheme {l : List (Nat × α)} {id : Nat} {fs : α}
    (h : l.find? (fun p => p.1 == id) = none) :
    (insertScheme l id fs).find? (fun p => p.1 == id) = some (id, fs) := by
  induction l with
  | nil => simp [insertScheme, List.find?]
  | cons q rest ih =>
      rcases q with ⟨i, f⟩
      have hne : ¬ ((fun p => p.1 == id) ((i, f) : Nat × α)) := by
        intro hc
        rw [@List.find?_cons_of_pos _ (fun p => p.1 == id) (i, f) rest hc] at h
        simp at h
      have htail : rest.find? (fun p => p.1 == id) = none := by
        rw [@List.find?_cons_of_neg _ (fun p => p.1 == id) (i, f) rest hne] at h
        exact h
      unfold insertScheme
      split
      · rw [@List.find?_cons_of_pos _ (fun p => p.1 == id) (id, fs) _ (by simp)]
      · rw [@List.find?_cons_of_neg _ (fun p => p.1 == id) (i, f) _ hne]
        exact ih htail

/-- Registration stores the locale-sorted copy of the field list under the
id. -/
theorem getScheme_register {st : SerializerState} {id : Nat} {fields : List String}
    {st2 : SerializerState} (h : registerSchema st id fields = .ok st2) :
    getScheme st2 id = some (jsSort localeCompare fields) := by
  unfold registerSchema at h
  split at h
  · simp at h
  · split at h
    · simp at h
    · cases hg : getScheme st id with
      | some f => rw [hg] at h; simp at h
      | none =>
          rw [hg] at h
          simp only [Except.ok.injEq] at h
          subst h
          unfold getScheme at hg ⊢
          cases hf : st.schemes.find? (fun p => p.1 == id) with
          | some q => rw [hf] at hg; simp at hg
          | none => simp [find?_insertScheme hf]

/-- Lookup after the in-place update of an existing id finds the new entry. -/
theorem find?_updateList {l : List (Nat × α)} {id : Nat} {fs : α}
    (h : (l.find? (fun p => p.1 == id)).isSome) :
    ((l.map (fun p => if p.1 = id then (p.1, fs) else p)).find?
      (fun p => p.1 == id)) = some (id, fs) := by
  induction l with
  | nil => simp [List.find?] at h
  | cons q rest ih =>
      rcases q with ⟨i, f⟩
      by_cases hi : i = id
      · subst hi
        simp only [List.map_cons]
        rw [if_pos trivial]
        rw [@List.find?_cons_of_pos _ (fun p => p.1 == i) (i, fs) _ (by simp)]
      · have hne2 : ¬ ((fun p => p.1 == id) ((i, f) : Nat × α)) := by simp [hi]
        rw [@List.find?_cons_of_neg _ (fun p => p.1 == id) (i, f) rest hne2] at h
        simp only [List.map_cons]
        rw [if_neg (by simpa using hi),
          @List.find?_cons_of_neg _ (fun p => p.1 == id) (i, f) _ hne2]
        exact ih h

/-- Update stores the locale-sorted copy of the new field list. -/
theorem getScheme_update {st : SerializerState} {id : Nat} {fields : List String}
    {st2 : SerializerState} (h : updateSchema st id fields = .ok st2) :
    getScheme st2 id = some (jsSort localeCompare fields) := by
  unfold updateSchema at h
  cases hg : getScheme st id with
  | none => rw [hg] at h; simp at h
  | some f =>
      rw [hg] at h
      simp only at h
      split at h
      · simp at h
      · split at h
        · simp at h
        · simp only [Except.ok.injEq] at h
          subst h
          unfold getScheme at hg ⊢
          have hsome : (st.schemes.find? (fun p => p.1 == id)).isSome := by
            cases hf : st.schemes.find? (fun p => p.1 == id)
            · rw [hf] at hg; simp at hg
            · simp
          simp [find?_updateList hsome]

/-! ## Claim C6 theorems -/

/-- C6 counterexample: `registerSchema(1, ['B','a'])` stores `['a','B']`
(locale order: lowercase 'a' sorts before uppercase 'B'), while the ordinal
(code-unit) sort of the same fields is `['B','a']` (66 < 97), so the stored
wire order is NOT the ordinal order. -/
theorem c6_counterexample :
    (registerSchema initialState 1 ["B", "a"]).map (fun st => getScheme st 1) =
      .ok (some ["a", "B"]) ∧
    jsSort ordinalCompare ["B", "a"] = ["B", "a"] ∧
    (["a", "B"] : List String) ≠ ["B", "a"] := by
  refine ⟨by rfl, by rfl, by simp⟩

/-- C6 amended: `registerSchema` and `updateSchema` store the field list
sorted by the locale-aware `localeCompare` comparator, and `getSchema`
returns exactly that list; for field names made only of lowercase ASCII
letters this coincides with the ordinal (code-unit) sort, but not in
general (see the counterexample). -/
theorem c6_sorted_storage :
    (∀ (st : SerializerState) (id : Nat) (fields : List String) st2,
      registerSchema st id fields = .ok st2 →
        getScheme st2 id = some (jsSort localeCompare fields) ∧
        ((∀ f ∈ fields, ∀ c ∈ f.data, 97 ≤ c.toNat ∧ c.toNat ≤ 122) →
          getScheme st2 id = some (jsSort ordinalCompare fields))) ∧
    (∀ (st : SerializerState) (id : Nat) (fields : List String) st3,
      updateSchema st id fields = .ok st3 →
        getScheme st3 id = some (jsSort localeCompare fields) ∧
        ((∀ f ∈ fields, ∀ c ∈ f.data, 97 ≤ c.toNat ∧ c.toNat ≤ 122) →
          getScheme st3 id = some (jsSort ordinalCompare fields))) := by
  constructor
  · intro st id fields st2 hreg
    refine ⟨getScheme_register hreg, fun hlow => ?_⟩
    rw [getScheme_register hreg, jsSort_locale_eq_ordinal hlow]
  · intro st id fields st3 hupd
    refine ⟨getScheme_update hupd, fun hlow => ?_⟩
    rw [getScheme_update hupd, jsSort_locale_eq_ordinal hlow]

/-- C6 amended witness: registering `['zebra','alpha']` at fresh id 5
stores `['alpha','zebra']`, then updating id 5 with `['name','age']` stores
`['age','name']`; both coincide with the ordinal sort for lowercase
fields. -/
theorem c6_sorted_storage_witness :
    getScheme { initialState with schemes := [(5, ["alpha", "zebra"])] } 5 =
      some (jsSort ordinalCompare ["zebra", "alpha"]) ∧
    getScheme { initialState with schemes := [(5, ["age", "name"])] } 5 =
      some (jsSort localeCompare ["name", "age"]) := by
  constructor
  · exact ((c6_sorted_storage.1 initialState 5 ["zebra", "alpha"]
      { initialState with schemes := [(5, ["alpha", "zebra"])] } (by rfl)).2 (by decide))
  · exact (c6_sorted_storage.2 { initialState with schemes := [(5, ["alpha", "zebra"])] }
      5 ["name", "age"] { initialState with schemes := [(5, ["age", "name"])] } (by rfl)).1

/-! ## Claim C9 -/

/-- C9: unknown-schema handling is asymmetric.  Serializing with an id
absent from the registry does not fail: it encodes the payload
schema-lessly, the packet's schema flag (bit 5) is false and no schema-id
field is present (the packet is version byte, flag byte, optional CRC32
field, then payload).  Deserializing any packet whose schema flag is set but
whose stored schema id is absent from the registry always fails with
`Cant find schema by id from payload`. -/
theorem c9_unknown_schema_asymmetry :
    (∀ (st : SerializerState) (comp : Option Compressor) (id : Nat)
        (m : List (String × Value)),
      getScheme st id = none → st.optUseSchema = false →
      ∃ st2 out,
        serialize st comp (.vMap m) (some (.byId id)) = .ok (st2,
          [3, flagsByteVal st2.enableCompression st.optUseCRC32 false] ++
          (if st.optUseCRC32 = true then int32UToBuf (crc32Calc out) else []) ++ out) ∧
        out = compressedOut st2 comp (coderEncode (.vArr (m.map Prod.snd))) ∧
        (flagsByteVal st2.enableCompression st.optUseCRC32 false).testBit 5 = false) ∧
    (∀ (st : SerializerState) (comp : Option Compressor) (b0 b1 : Nat)
        (rest : List Nat) (sid : Nat),
      b0 % 256 = 3 → (b1 % 256).testBit 5 = true →
      bufToInt32U ((b0 :: b1 :: rest).map (· % 256))
        (if (b1 % 256).testBit 6 = true then 6 else 2) = .ok sid →
      getScheme st sid = none →
      deserialize st comp (b0 :: b1 :: rest) =
        .error "Cant find schema by id from payload") := by
  constructor
  · intro st comp id m hid hus
    refine ⟨makePacketState st comp (coderEncode (.vArr (m.map Prod.snd))).length none,
      compressedOut (makePacketState st comp (coderEncode (.vArr (m.map Prod.snd))).length none)
        comp (coderEncode (.vArr (m.map Prod.snd))), ?_, rfl, by
          rw [flagsByteVal_testBit5]⟩
    unfold serialize selectSchema detectId
    simp only
    rw [hid]
    simp only
    rw [makePacket_eq]
    have hstate : ∀ dlen, (makePacketState st comp dlen none).optUseCRC32 = st.optUseCRC32 ∧
        (makePacketState st comp dlen none).optUseSchema = false := by
      intro dlen
      unfold makePacketState
      cases comp <;> simp [hus]
    rw [Except.ok.injEq, Prod.mk.injEq]
    refine ⟨rfl, ?_⟩
    rw [(hstate _).1, (hstate _).2]
    simp [schemaPartBytes, List.append_assoc]
  · intro st comp b0 b1 rest sid hv hfb hsid hns
    unfold deserialize
    simp only [List.map_cons]
    rw [hv]
    simp only [bufToInt8U_zero, bufToBinFlags_one, exc_bind_ok, exc_bind_err, exc_throw,
      List.getD_cons_zero, List.getD_cons_succ, ne_eq]
    rw [if_neg (by norm_num)]
    simp only [hfb, ite_true, if_true]
    simp only [List.map_cons] at hsid
    rw [hv] at hsid
    simp only [exc_pure, exc_bind_ok, hsid, hns, exc_throw]

/-- C9 witness: serializing `{a: 1}` with unregistered id 7 on a fresh
serializer succeeds schema-lessly, and deserializing the 6-byte packet
`[3, 32, 9, 0, 0, 0]` (schema flag set, schema id 9, empty registry) fails
with the schema-not-found error. -/
theorem c9_unknown_schema_asymmetry_witness :
    (∃ st2 out,
      serialize initialState none (.vMap [("a", .vInt 1)]) (some (.byId 7)) = .ok (st2,
        [3, flagsByteVal st2.enableCompression initialState.optUseCRC32 false] ++
        (if initialState.optUseCRC32 = true then int32UToBuf (crc32Calc out) else []) ++ out) ∧
      out = compressedOut st2 none (coderEncode (.vArr ([("a", Value.vInt 1)].map Prod.snd))) ∧
      (flagsByteVal st2.enableCompression initialState.optUseCRC32 false).testBit 5 = false) ∧
    deserialize initialState none (3 :: 32 :: [9, 0, 0, 0]) =
      .error "Cant find schema by id from payload" :=
  ⟨c9_unknown_schema_asymmetry.1 initialState none 7 [("a", .vInt 1)] (by rfl) (by rfl),
   c9_unknown_schema_asymmetry.2 initialState none 3 32 [9, 0, 0, 0] 9
     (by rfl) (by decide) (by rfl) (by rfl)⟩

/-! ## Claim C8 -/

/-- C8: with a compression strategy configured, `makePacket` (the packet
assembly step of `serialize`, whose `data` argument is the object-coder
output) applies compression exactly when the data length reaches the
threshold (default 1024: 1023 bytes stay raw, 1024 get compressed), and the
header's compressed flag (bit 7) equals whether compression was applied on
that call; with no strategy configured the flag is false (the
`enableCompression` field is never set on such an instance) and the data
passes through unmodified. -/
theorem c8_compression_gating :
    (∀ (st : SerializerState) (c : Compressor) (data : List Nat) (sch : Option Nat),
      (((makePacket st (some c) data sch).2.getD 1 0).testBit 7 =
        decide (st.compressionLengthThreshold ≤ data.length)) ∧
      ∃ hdr, (makePacket st (some c) data sch).2 =
        hdr ++ (if st.compressionLengthThreshold ≤ data.length
                then (c.compress data).map (· % 256) else data)) ∧
    (∀ (st : SerializerState) (data : List Nat) (sch : Option Nat),
      st.enableCompression = false →
      (((makePacket st none data sch).2.getD 1 0).testBit 7 = false) ∧
      ∃ hdr, (makePacket st none data sch).2 = hdr ++ data) := by
  constructor
  · intro st c data sch
    rw [makePacket_eq]
    have hstate : makePacketState st (some c) data.length sch =
        { (if sch.isSome then { st with optUseSchema := true } else st) with
          enableCompression := decide (st.compressionLengthThreshold ≤ data.length) } := by
      unfold makePacketState
      cases sch <;> simp
    constructor
    · rw [hstate]
      simp only [List.getD_cons_succ, List.getD_cons_zero, List.cons_append,
        List.append_assoc]
      rw [flagsByteVal_testBit7]
    · have hout : compressedOut (makePacketState st (some c) data.length sch) (some c) data =
          (if st.compressionLengthThreshold ≤ data.length
           then (c.compress data).map (· % 256) else data) := by
        unfold compressedOut
        rw [hstate]
        by_cases hth : st.compressionLengthThreshold ≤ data.length
        · simp [hth]
        · simp [hth]
      exact ⟨_, by rw [← hout]⟩
  · intro st data sch hen
    rw [makePacket_eq]
    have hstate : (makePacketState st none data.length sch).enableCompression = false := by
      unfold makePacketState
      cases sch <;> simp [hen]
    constructor
    · simp only [List.getD_cons_succ, List.getD_cons_zero, List.cons_append,
        List.append_assoc]
      rw [flagsByteVal_testBit7, hstate]
    · exact ⟨_, rfl⟩

/-- C8 witness: at the default threshold 1024 (CRC disabled to keep the
packets small), a 1023-byte coder output is left raw with the compressed
flag clear, and a 1024-byte output is compressed with the flag set. -/
theorem c8_compression_gating_witness :
    (((makePacket ⟨false, false, false, 1024, []⟩
        (some ⟨fun d => 67 :: 79 :: 77 :: 80 :: d, fun d => d.drop 4⟩)
        (List.replicate 1023 7) none).2.getD 1 0).testBit 7 = false) ∧
    (((makePacket ⟨false, false, false, 1024, []⟩
        (some ⟨fun d => 67 :: 79 :: 77 :: 80 :: d, fun d => d.drop 4⟩)
        (List.replicate 1024 7) none).2.getD 1 0).testBit 7 = true) := by
  have h1 := (c8_compression_gating.1 ⟨false, false, false, 1024, []⟩
    ⟨fun d => 67 :: 79 :: 77 :: 80 :: d, fun d => d.drop 4⟩ (List.replicate 1023 7) none).1
  have h2 := (c8_compression_gating.1 ⟨false, false, false, 1024, []⟩
    ⟨fun d => 67 :: 79 :: 77 :: 80 :: d, fun d => d.drop 4⟩ (List.replicate 1024 7) none).1
  refine ⟨?_, ?_⟩
  · rw [h1, List.length_replicate]
    decide
  · rw [h2, List.length_replicate]
    decide

/-! ## Claim C4 -/

/-- C4 (code bug evaluation): `makePacket` receives `this.options` by
reference and sets `config.useSchema = true` when a schema is used, so a
schema-ful `serialize` permanently mutates the instance options; the next
schema-less `serialize` on the same instance emits a packet whose schema
flag (bit 5) is set with NO schema-id field, and the instance's own
`deserialize` then rejects that packet. -/
theorem c4_options_mutation :
    (do
      let st1 ← registerSchema initialState 1 ["a"]
      let r1 ← serialize st1 none (.vMap [("a", .vInt 1)]) (some (.byId 1))
      let r2 ← serialize r1.1 none (.vMap [("b", .vInt 2)]) none
      pure (r1.1.optUseSchema, (r2.2.getD 1 0).testBit 5,
            deserialize r2.1 none r2.2)) =
    .ok (true, true, .error "Cant find schema by id from payload") := by rfl

/-! ## Claim C1 -/

/-- C1 (code bug evaluation): schema id 0 is accepted by `registerSchema`
("non-negative integer") and validated against the payload, but
`serialize`'s `schema?.id || null` treats the falsy id 0 as null, so the
packet is emitted schema-lessly (schema flag clear) and the round trip
returns the bare value array `[1]` instead of the map `{x: 1}`. -/
theorem c1_schema_zero_dropped :
    ((do
      let st1 ← registerSchema initialState 0 ["x"]
      let r ← serialize st1 none (.vMap [("x", .vInt 1)]) (some (.byId 0))
      let v ← deserialize r.1 none r.2
      pure ((r.2.getD 1 0).testBit 5, v)) =
    .ok (false, .vArr [.vInt 1])) ∧
    Value.vArr [.vInt 1] ≠ .vMap [("x", .vInt 1)] := by
  refine ⟨by rfl, by simp⟩

/-! ## Claim C2 -/

/-- C2 (code bug evaluation): with no schema supplied and no registered
schema matching, `serialize` encodes only `Object.values(payload)` (the
keys are elided from the wire payload), and `deserialize` has no schema-less
reconstruction step, so the round trip of `{test: 'value'}` on a fresh
serializer returns the bare array `['value']`, not the original map —
contradicting the claimed self-describing schema-less encoding. -/
theorem c2_schemaless_keys_elided :
    ((do
      let r ← serialize initialState none (.vMap [("test", .vStr "value")]) none
      deserialize r.1 none r.2) = .ok (.vArr [.vStr "value"])) ∧
    Value.vArr [.vStr "value"] ≠ .vMap [("test", .vStr "value")] := by
  refine ⟨by rfl, by simp⟩

/-! ## Claim C5 -/

/-- Fresh references handed out by the copy loop lie past the original
store. -/
theorem hCopyAll_refs_ge : ∀ (entries : List (Nat × Nat)) (store : List (List String)),
    ∀ pr ∈ (hCopyAll entries store).2, store.length ≤ pr.2
  | [], _, pr, hpr => by simp [hCopyAll] at hpr
  | (id, ref) :: rest, store, pr, hpr => by
      unfold hCopyAll at hpr
      simp only [List.mem_cons] at hpr
      rcases hpr with hpr | hpr
      · subst hpr; simp
      · have := hCopyAll_refs_ge rest (store ++ [store.getD ref []]) pr hpr
        simp only [List.length_append, List.length_cons, List.length_nil] at this
        omega

/-- The copy loop only appends to the store. -/
theorem hCopyAll_store_prefix : ∀ (entries : List (Nat × Nat)) (store : List (List String)),
    ∃ ext, (hCopyAll entries store).1 = store ++ ext
  | [], store => ⟨[], by simp [hCopyAll]⟩
  | (id, ref) :: rest, store => by
      unfold hCopyAll
      rcases hCopyAll_store_prefix rest (store ++ [store.getD ref []]) with ⟨ext, hext⟩
      exact ⟨[store.getD ref []] ++ ext, by simp only [hext, List.append_assoc]⟩

/-- A reference returned by `hGetSchema` is registered and in range. -/
theorem hGetSchema_ref_lt {r : HeapRegistry} {id ref : Nat} (hwf : hWF r)
    (h : hGetSchema r id = some ref) : ref < r.store.length := by
  unfold hGetSchema at h
  cases hf : r.schemes.find? (fun p => p.1 == id) with
  | none => rw [hf] at h; simp at h
  | some q =>
      rw [hf] at h
      have h2 : q.2 = ref := by simpa using h
      exact h2 ▸ hwf q (List.mem_of_find?_eq_some hf)

/-- C5 counterexample: on a registry holding schema 1 = `['a']`, `getSchema`
hands out the registry's own array reference; writing `['a','HACKED']`
through it makes the next `getSchema` read `['a','HACKED']`, so mutating the
returned array does NOT leave the registry unchanged. -/
theorem c5_counterexample :
    hGetSchema (hRegisterSchema hEmpty 1 ["a"]) 1 = some 0 ∧
    hRead (hRegisterSchema hEmpty 1 ["a"]) 0 = ["a"] ∧
    hRead (hWrite (hRegisterSchema hEmpty 1 ["a"]) 0 ["a", "HACKED"])
      ((hGetSchema (hWrite (hRegisterSchema hEmpty 1 ["a"]) 0 ["a", "HACKED"]) 1).getD 99) =
      ["a", "HACKED"] ∧
    (["a", "HACKED"] : List String) ≠ ["a"] := by
  refine ⟨by rfl, by rfl, by rfl, by simp⟩

/-- C5 amended: `getRegisteredSchemas` returns fresh copies — writing
through any returned reference leaves every registered array unchanged —
but `getSchema` returns the registry's own reference, so writing through it
changes what subsequent reads of that schema see. -/
theorem c5_copy_semantics :
    (∀ (r : HeapRegistry) (id ref : Nat) (pr : Nat × Nat) (v : List String),
      hWF r → pr ∈ (hGetRegisteredSchemas r).2 → hGetSchema r id = some ref →
      hGetSchema (hGetRegisteredSchemas r).1 id = some ref ∧
      hRead (hWrite (hGetRegisteredSchemas r).1 pr.2 v) ref = hRead r ref) ∧
    (∀ (r : HeapRegistry) (id ref : Nat) (v : List String),
      hWF r → hGetSchema r id = some ref →
      hGetSchema (hWrite r ref v) id = some ref ∧
      hRead (hWrite r ref v) ref = v) := by
  constructor
  · intro r id ref pr v hwf hpr hget
    have href : ref < r.store.length := hGetSchema_ref_lt hwf hget
    have hprge : r.store.length ≤ pr.2 :=
      hCopyAll_refs_ge r.schemes r.store pr hpr
    rcases hCopyAll_store_prefix r.schemes r.store with ⟨ext, hext⟩
    constructor
    · exact hget
    · unfold hRead hWrite hGetRegisteredSchemas
      simp only [hext]
      rw [List.getD_eq_getElem?_getD, List.getElem?_set_ne (by omega),
        ← List.getD_eq_getElem?_getD, List.getD_append _ _ _ _ href]
  · intro r id ref v hwf hget
    have href : ref < r.store.length := hGetSchema_ref_lt hwf hget
    refine ⟨hget, ?_⟩
    unfold hRead hWrite
    rw [List.getD_eq_getElem?_getD, List.getElem?_set_self (by simpa using href)]
    rfl

/-- C5 amended witness: on the registry holding schema 1 = `['a']`, writing
through the fresh reference returned by `getRegisteredSchemas` leaves the
registry's array `['a']` readable unchanged, while writing through the
reference returned by `getSchema` makes subsequent reads see the new
contents. -/
theorem c5_copy_semantics_witness :
    (hRead (hWrite (hGetRegisteredSchemas (hRegisterSchema hEmpty 1 ["a"])).1 (1, 1).2 ["x"]) 0 =
      hRead (hRegisterSchema hEmpty 1 ["a"]) 0) ∧
    hRead (hWrite (hRegisterSchema hEmpty 1 ["a"]) 0 ["x"]) 0 = ["x"] :=
  ⟨(c5_copy_semantics.1 (hRegisterSchema hEmpty 1 ["a"]) 1 0 (1, 1) ["x"]
      (by intro p hp; simp only [hRegisterSchema] at hp; simp [hEmpty, insertScheme] at hp;
          simp [hp, hEmpty, hRegisterSchema])
      (by simp [hGetRegisteredSchemas, hRegisterSchema, hEmpty, insertScheme, hCopyAll])
      (by rfl)).2,
   (c5_copy_semantics.2 (hRegisterSchema hEmpty 1 ["a"]) 1 0 ["x"]
      (by intro p hp; simp only [hRegisterSchema] at hp; simp [hEmpty, insertScheme] at hp;
          simp [hp, hEmpty, hRegisterSchema])
      (by rfl)).2⟩

/-! ## Claim C7 -/

/-- Header length of a packet as implied by its flag byte (version and flag
bytes, then 4 bytes per set CRC/schema flag), mirroring the offset
computation of `getPacketInfo` and `deserialize`. -/
def headerLen (pkt : List Nat) : Nat :=
  2 + (if (pkt.getD 1 0).testBit 6 then 4 else 0) +
    (if (pkt.getD 1 0).testBit 5 then 4 else 0)

/-- The compressed output consists of bytes. -/
theorem compressedOut_lt (st : SerializerState) (comp : Option Compressor)
    (vals : List Value) :
    ∀ b ∈ compressedOut st comp (coderEncode (.vArr vals)), b < 256 := by
  intro b hb
  unfold compressedOut at hb
  cases comp with
  | none => exact coderEncode_lt _ b hb
  | some c =>
      simp only at hb
      by_cases hen : st.enableCompression = true
      · rw [if_pos hen] at hb
        rw [List.mem_map] at hb
        rcases hb with ⟨a, _, rfl⟩
        exact Nat.mod_lt _ (by norm_num)
      · rw [if_neg hen] at hb
        exact coderEncode_lt _ b hb

/-- The state updates of `makePacket` preserve the registry and the CRC
option, and set the schema option exactly when a schema id is passed
(given it was false before). -/
theorem makePacketState_fields (st : SerializerState) (comp : Option Compressor)
    (dlen : Nat) (sch : Option Nat) (hus : st.optUseSchema = false) :
    (makePacketState st comp dlen sch).optUseCRC32 = st.optUseCRC32 ∧
    (makePacketState st comp dlen sch).optUseSchema = sch.isSome ∧
    (makePacketState st comp dlen sch).schemes = st.schemes := by
  unfold makePacketState
  cases comp <;> cases sch <;> simp [hus]

/-- C7: with CRC32 enabled, flipping any single byte in the payload region
of a packet produced by `serialize` makes `deserialize` fail with
`Input data CRC32 error` — for every compressor configuration of the
reader, since the check runs before any decompression or decoding. -/
theorem c7_crc_detects_flip
    (st : SerializerState) (comp : Option Compressor) (payload : Value)
    (sr : Option SchemaRef) (st2 : SerializerState) (pkt : List Nat)
    (hser : serialize st comp payload sr = .ok (st2, pkt))
    (hcrcopt : st.optUseCRC32 = true) (husopt : st.optUseSchema = false)
    (hids : ∀ p ∈ st.schemes, p.1 < 2 ^ 32)
    (i : Nat) (hi : headerLen pkt ≤ i) (hilt : i < pkt.length)
    (x : Nat) (hx : x < 256) (hne : x ≠ pkt.getD i 0) :
    ∀ comp2 : Option Compressor,
      deserialize st2 comp2 (pkt.set i x) = .error "Input data CRC32 error" := by
  intro comp2
  obtain ⟨vals, sch, hmk, hschreg⟩ := serialize_ok_shape hser
  rw [makePacket_eq, Prod.mk.injEq] at hmk
  obtain ⟨hst2, hpkt⟩ := hmk
  obtain ⟨hf_crc, hf_us, hf_sch⟩ :=
    makePacketState_fields st comp (coderEncode (.vArr vals)).length sch husopt
  rw [hf_crc, hcrcopt, if_pos rfl, hf_us] at hpkt
  have hschBlen : (schemaPartBytes sch).length = (if sch.isSome then 4 else 0) := by
    cases hs : sch with
    | none => rfl
    | some s =>
        have hs0 := (hschreg s hs).1
        simp [schemaPartBytes, hs0, int32UToBuf_length]
  have hpkt2 : pkt =
      ([3, flagsByteVal
          (makePacketState st comp (coderEncode (.vArr vals)).length sch).enableCompression
          true sch.isSome] ++
        int32UToBuf (crc32Calc (compressedOut
          (makePacketState st comp (coderEncode (.vArr vals)).length sch) comp
          (coderEncode (.vArr vals)))) ++
        schemaPartBytes sch) ++
      compressedOut (makePacketState st comp (coderEncode (.vArr vals)).length sch) comp
        (coderEncode (.vArr vals)) := by
    rw [hpkt]
  have hhdrlen : ([3, flagsByteVal
      (makePacketState st comp (coderEncode (.vArr vals)).length sch).enableCompression
      true sch.isSome] ++
      int32UToBuf (crc32Calc (compressedOut
        (makePacketState st comp (coderEncode (.vArr vals)).length sch) comp
        (coderEncode (.vArr vals)))) ++
      schemaPartBytes sch).length = 6 + (if sch.isSome then 4 else 0) := by
    cases hb : sch.isSome <;>
      simp [int32UToBuf_length, hschBlen, hb]
  have hfb : pkt.getD 1 0 = flagsByteVal
      (makePacketState st comp (coderEncode (.vArr vals)).length sch).enableCompression
      true sch.isSome := by
    rw [hpkt2]
    rfl
  have hhl : headerLen pkt = 6 + (if sch.isSome then 4 else 0) := by
    unfold headerLen
    rw [hfb, flagsByteVal_testBit6, flagsByteVal_testBit5]
    cases sch.isSome <;> simp
  have hout_lt := compressedOut_lt
    (makePacketState st comp (coderEncode (.vArr vals)).length sch) comp vals
  have hschemes2 : st2.schemes = st.schemes := by rw [hst2]; exact hf_sch
  have hschdisj : (sch.isSome = false ∧ schemaPartBytes sch = ([] : List Nat)) ∨
      (sch.isSome = true ∧ ∃ sid f, sid < 2 ^ 32 ∧ schemaPartBytes sch = int32UToBuf sid ∧
        getScheme st2 sid = some f) := by
    cases hs : sch with
    | none => exact Or.inl ⟨rfl, rfl⟩
    | some s =>
        obtain ⟨hs0, f, hf⟩ := hschreg s hs
        refine Or.inr ⟨rfl, s, f, ?_, ?_, ?_⟩
        · unfold getScheme at hf
          rcases hq : st.schemes.find? (fun p => p.1 == s) with _ | q
          · rw [hq] at hf; simp at hf
          · have hqmem := List.mem_of_find?_eq_some hq
            have hqeq : q.1 = s := by simpa using List.find?_some hq
            have := hids q hqmem
            omega
        · simp [schemaPartBytes, hs0]
        · unfold getScheme; rw [hschemes2]; exact hf
  generalize hOUT : compressedOut
      (makePacketState st comp (coderEncode (.vArr vals)).length sch) comp
      (coderEncode (.vArr vals)) = out at hpkt2 hhdrlen hout_lt
  generalize hHDR : [3, flagsByteVal
      (makePacketState st comp (coderEncode (.vArr vals)).length sch).enableCompression
      true sch.isSome] ++
      int32UToBuf (crc32Calc out) ++ schemaPartBytes sch = hdr at hpkt2 hhdrlen
  have hige : hdr.length ≤ i := by rw [hhdrlen, ← hhl]; exact hi
  have hplen : pkt.length = hdr.length + out.length := by
    rw [hpkt2, List.length_append]
  have hjlt : i - hdr.length < out.length := by omega
  have hset : pkt.set i x = hdr ++ out.set (i - hdr.length) x := by
    rw [hpkt2, List.set_append_right _ _ hige]
  have hgd : pkt.getD i 0 = out.getD (i - hdr.length) 0 := by
    rw [hpkt2, List.getD_append_right _ _ _ _ hige]
  have hne2 : x ≠ out.getD (i - hdr.length) 0 := by rw [← hgd]; exact hne
  have hcrcne : crc32Calc out ≠ crc32Calc (out.set (i - hdr.length) x) :=
    (crc32Calc_set_ne hjlt hout_lt hx hne2).symm
  have hbody2 : ∀ b ∈ out.set (i - hdr.length) x, b < 256 := by
    intro b hb
    rcases List.mem_or_eq_of_mem_set hb with h | rfl
    · exact hout_lt b h
    · exact hx
  subst hHDR
  rw [hset]
  exact deserialize_crc_error _ _ _ _ _ (crc32Calc_lt out) hbody2 hschdisj hcrcne

/-- C7 witness: on the 15-byte packet produced for `{a: 1}` with CRC32 on and
no schema, flipping the last payload byte to 254 makes deserialization fail
with the CRC error. -/
theorem c7_crc_detects_flip_witness :
    serialize initialState none (.vMap [("a", .vInt 1)]) none =
      .ok (initialState, [3, 64, 178, 181, 204, 185, 2, 1, 0, 1, 0, 0, 1, 0, 1]) ∧
    deserialize initialState none
      (([3, 64, 178, 181, 204, 185, 2, 1, 0, 1, 0, 0, 1, 0, 1] : List Nat).set 14 254) =
      .error "Input data CRC32 error" :=
  ⟨by rfl,
   c7_crc_detects_flip initialState none (.vMap [("a", .vInt 1)]) none initialState
     [3, 64, 178, 181, 204, 185, 2, 1, 0, 1, 0, 0, 1, 0, 1] (by rfl) rfl rfl
     (by intro p hp; simp [initialState] at hp)
     14 (by decide) (by decide) 254 (by decide) (by decide) none⟩

end Osmium
